import Mathlib

/-!
Shallow embedding of the crawl-and-extract pipeline of
src/08_AUTOMATION/CLI_Tools/auction_scraper/scrape_auctions.py.

Conventions of the embedding:
* Python strings are Lean String (ASCII assumed; the program only feeds
  ASCII-relevant predicates to the regexes involved).
* A Python function that may raise an uncaught exception is modelled as
  Except Unit; a caught exception (try/except) is modelled by matching on
  the Except value at the call site, exactly where the source catches it.
* Python dicts used as records are modelled as functions String → Option Val
  (key absent = none; a key holding Python None = some Val.vNone, which is
  distinct from absence, as in Python).
* Regular-expression search is modelled by direct leftmost-match scanners
  whose behaviour is derived from the concrete patterns in the source
  (documented at each definition).
-/

deriving instance DecidableEq for Except

namespace Scrape

/-- Python regex class \s restricted to ASCII, as used by CURRENCY_RE and
str.strip() on the ASCII inputs of this program. -/
def isPySpace (c : Char) : Bool :=
  c = ' ' || c = '\t' || c = '\n' || c = '\x0d' || c = '\x0b' || c = '\x0c'

/-- Python regex word character \w restricted to ASCII: letter, digit or
underscore.  Used for the \b boundaries of INT_RE. -/
def isWordChar (c : Char) : Bool :=
  c.isAlphanum || c = '_'

/-- Character class [0-9,] shared by CURRENCY_RE, INT_RE and WEIGHT_RE. -/
def isMoneyChar (c : Char) : Bool :=
  c.isDigit || c = ','

/-- Python str.strip(): drop ASCII whitespace from both ends. -/
def pyStrip (s : String) : String :=
  String.mk (((s.toList.dropWhile isPySpace).reverse.dropWhile isPySpace).reverse)

/-- Python str.lower() on ASCII text. -/
def pyLower (s : String) : String :=
  String.mk (s.toList.map Char.toLower)

/-- Prefix test on strings by character list (kernel-computable form of
str.startswith). -/
def strStartsWith (s pre : String) : Bool :=
  pre.toList.isPrefixOf s.toList

/-- Value of a list of decimal digit characters read as a natural number. -/
def digitsVal (l : List Char) : Nat :=
  l.foldl (fun acc c => acc * 10 + (c.toNat - 48)) 0

/-- Exact nonnegative decimal number num / 10^scale.  Every float this
program produces is such a decimal (a regex capture group, or one divided
by 100), and the program only ever compares floats for truthiness, so the
exact decimal is a faithful model of the Python float.  Values are kept
canonical: scale is 0 or num is not divisible by 10. -/
structure Dec where
  num : Nat
  scale : Nat
deriving DecidableEq, Repr

/-- Canonicalize a decimal by stripping trailing zero fraction digits;
structural recursion on the scale. -/
def Dec.norm : Nat → Nat → Dec
  | n, 0 => ⟨n, 0⟩
  | n, s + 1 => if n % 10 = 0 then Dec.norm (n / 10) s else ⟨n, s + 1⟩

/-- Rational value of a decimal (used only in statements, never in the
computational path). -/
def Dec.toRat (d : Dec) : ℚ :=
  (d.num : ℚ) / ((10 : ℚ) ^ d.scale)

/-- The zero float. -/
def Dec.zero : Dec := ⟨0, 0⟩

/-- Model of Python float() restricted to the strings reachable from the
regex groups of this program after comma removal: digit characters with at
most one decimal point.  float("") and float(".") raise ValueError, modelled
as Except.error. -/
def pyFloat (s : String) : Except Unit Dec :=
  let cs := s.toList
  let ip := cs.takeWhile (fun c => c ≠ '.')
  match cs.drop ip.length with
  | [] =>
      if !ip.isEmpty && ip.all Char.isDigit then
        Except.ok (Dec.norm (digitsVal ip) 0)
      else Except.error ()
  | _ :: frac =>
      if ip.all Char.isDigit && frac.all Char.isDigit &&
          (!ip.isEmpty || !frac.isEmpty) then
        Except.ok (Dec.norm (digitsVal (ip ++ frac)) frac.length)
      else Except.error ()

/-- Model of Python int() on the strings reachable from INT_RE groups after
comma removal: a nonempty all-digit string converts, anything else raises. -/
def pyInt (s : String) : Except Unit Int :=
  if s ≠ "" ∧ s.toList.all Char.isDigit then Except.ok (digitsVal s.toList : Int)
  else Except.error ()

/-- Match of CURRENCY_RE immediately after a '$': skip \s*, then a maximal
nonempty run of [0-9,], then optionally a '.' followed by two digits.
Backtracking inside \s* or [0-9,]+ can never help because the character
classes involved are disjoint, so the greedy pass is exact. -/
def currencyAfterDollar (cs : List Char) : Option (List Char) :=
  let rest := cs.dropWhile isPySpace
  let run := rest.takeWhile isMoneyChar
  if run.isEmpty then none
  else
    match rest.drop run.length with
    | '.' :: d1 :: d2 :: _ =>
        if d1.isDigit && d2.isDigit then some (run ++ ['.', d1, d2]) else some run
    | _ => some run

/-- Leftmost search of CURRENCY_RE = \$\s*([0-9,]+(?:\.[0-9]{2})?):
scan for the first '$' at which the rest of the pattern matches and
return the capture group. -/
def currencySearch : List Char → Option (List Char)
  | [] => none
  | c :: cs =>
      if c = '$' then
        match currencyAfterDollar cs with
        | some g => some g
        | none => currencySearch cs
      else currencySearch cs

/-- parse_currency (scrape_auctions.py lines 97-101).  The float()
conversion of the capture group with commas removed is NOT wrapped in
try/except in the source, so an all-comma group (e.g. input starting with
a dollar sign followed by a comma) raises ValueError; the raise is
modelled as Except.error. -/
def parse_currency (value : String) : Except Unit (Option Dec) :=
  match currencySearch value.toList with
  | none => Except.ok none
  | some g =>
      match pyFloat (String.mk (g.filter (fun c => c ≠ ','))) with
      | Except.ok q => Except.ok (some q)
      | Except.error e => Except.error e

/-- Leftmost search of INT_RE = \b([0-9,]+)\b on a comma-free string
(parse_int removes commas before searching, so the class reduces to
[0-9]+).  A maximal digit run matches iff it is preceded by start-of-string
or a non-word character and followed by end-of-string or a non-word
character; backtracking inside the run cannot restore a failed trailing
boundary because every digit is a word character. -/
def intSearchAux (prev : Option Char) : List Char → Option (List Char)
  | [] => none
  | c :: cs =>
      if c.isDigit && (match prev with | none => true | some p => !isWordChar p) then
        let digs := cs.takeWhile Char.isDigit
        if (match cs.drop digs.length with | [] => true | r :: _ => !isWordChar r) then
          some (c :: digs)
        else intSearchAux (some c) cs
      else intSearchAux (some c) cs

/-- parse_int (scrape_auctions.py lines 104-111): remove commas, search
INT_RE, convert the group with int() inside try/except ValueError (the
except branch returns None). -/
def parse_int (value : String) : Option Int :=
  match intSearchAux none (value.toList.filter (fun c => c ≠ ',')) with
  | none => none
  | some run =>
      match pyInt (String.mk (run.filter (fun c => c ≠ ','))) with
      | Except.ok n => some n
      | Except.error _ => none

/-- Tail \s*[lL][bB] of WEIGHT_RE (re.I makes the unit marker
case-insensitive).  Backtracking over \s* cannot help because 'l'/'L' is
not a whitespace character. -/
def weightTailOk (cs : List Char) : Bool :=
  match cs.dropWhile isPySpace with
  | l :: b :: _ => (l = 'l' || l = 'L') && (b = 'b' || b = 'B')
  | _ => false

/-- Match of WEIGHT_RE = ([0-9,]+(?:\.[0-9]+)?)\s*lb anchored at the head
of the list.  Backtracking below the maximal [0-9,]+ run or the maximal
fraction-digit run can never succeed, because the character that would
follow a shortened run is a digit or comma, which matches none of
'.', \s, 'l'; so the greedy pass is exact. -/
def weightMatchAt (cs : List Char) : Option (List Char) :=
  let run := cs.takeWhile isMoneyChar
  if run.isEmpty then none
  else
    match cs.drop run.length with
    | '.' :: ds =>
        let digs := ds.takeWhile Char.isDigit
        if digs.isEmpty then none
        else if weightTailOk (ds.drop digs.length) then some (run ++ '.' :: digs)
        else none
    | rem => if weightTailOk rem then some run else none

/-- Leftmost search of WEIGHT_RE: try each start position left to right. -/
def weightSearch : List Char → Option (List Char)
  | [] => none
  | c :: cs =>
      match weightMatchAt (c :: cs) with
      | some g => some g
      | none => weightSearch cs

/-- parse_weight_lbs (scrape_auctions.py lines 114-121): search WEIGHT_RE,
convert the group with float() after comma removal inside try/except
ValueError (the except branch returns None). -/
def parse_weight_lbs (value : String) : Option Dec :=
  match weightSearch value.toList with
  | none => none
  | some g =>
      match pyFloat (String.mk (g.filter (fun c => c ≠ ','))) with
      | Except.ok q => some q
      | Except.error _ => none

/-- Replacement pass of WHITESPACE_RE.sub(" ", text): every maximal
whitespace run becomes a single space; the flag records whether the
previous character was part of a whitespace run. -/
def collapseWsAux (inRun : Bool) : List Char → List Char
  | [] => []
  | c :: cs =>
      if isPySpace c then
        if inRun then collapseWsAux true cs else ' ' :: collapseWsAux true cs
      else c :: collapseWsAux false cs

/-- WHITESPACE_RE.sub(" ", text). -/
def collapseWs (l : List Char) : List Char :=
  collapseWsAux false l

/-- normalize_label (scrape_auctions.py lines 124-125):
WHITESPACE_RE.sub(" ", label.strip().lower()). -/
def normalize_label (label : String) : String :=
  String.mk (collapseWs (pyLower (pyStrip label)).toList)

/-- LABEL_MAP (scrape_auctions.py lines 36-62): controlled vocabulary from
normalized label to canonical field name, as an association list in source
order. -/
def LABEL_MAP : List (String × String) :=
  [("lot #", "lot_number"),
   ("lot number", "lot_number"),
   ("auction id", "auction_id"),
   ("condition", "condition"),
   ("location", "location"),
   ("est. msrp", "msrp"),
   ("msrp", "msrp"),
   ("retail value", "retail_value"),
   ("quantity", "quantity"),
   ("units", "quantity"),
   ("pallet count", "pallet_count"),
   ("buyer premium", "buyer_premium"),
   ("auction ends", "auction_end"),
   ("auction end", "auction_end"),
   ("bidding ends", "auction_end"),
   ("bidding starts", "auction_start"),
   ("start time", "auction_start"),
   ("end time", "auction_end"),
   ("current bid", "current_bid"),
   ("reserve", "reserve"),
   ("seller", "seller"),
   ("manifest", "manifest"),
   ("lot id", "lot_id"),
   ("total items", "total_items"),
   ("weight", "weight")]

/-- One harvested label/value pair as produced by parse_kv_pairs. -/
structure KvPair where
  label : String
  value : String
deriving DecidableEq, Repr

/-- Substring test: does the needle occur contiguously in the haystack?
Models the Python `in` operator on strings and pattern.search for literal
patterns. -/
def containsSub (needle : List Char) : List Char → Bool
  | [] => needle.isEmpty
  | c :: cs => needle.isPrefixOf (c :: cs) || containsSub needle cs

/-- String-level wrapper for containsSub. -/
def strContains (hay needle : String) : Bool :=
  containsSub needle.toList hay.toList

/-- filter_pairs (scrape_auctions.py lines 167-179): drop pairs with an
empty label or value, a label containing a question mark or template-brace
markers, or a label longer than 48 characters. -/
def filter_pairs (pairs : List KvPair) : List KvPair :=
  pairs.filter (fun p =>
    p.label ≠ "" && p.value ≠ "" &&
    !(strContains p.label "?") &&
    !(strContains p.label "\x7b\x7b") &&
    !(strContains p.label "\x7d\x7d") &&
    p.label.length ≤ 48)

/-- normalize_pairs (scrape_auctions.py lines 182-188): map each pair's
normalized label through LABEL_MAP; the first pair to produce a canonical
key wins, later pairs with the same key are dropped.  The resulting dict is
modelled as an association list in insertion order with unique keys. -/
def npStep (acc : List (String × String)) (p : KvPair) : List (String × String) :=
  match LABEL_MAP.lookup (normalize_label p.label) with
  | some key => if (acc.lookup key).isSome then acc else acc ++ [(key, p.value)]
  | none => acc

/-- normalize_pairs entry point: fold the pairs through npStep. -/
def normalize_pairs (pairs : List KvPair) : List (String × String) :=
  pairs.foldl npStep []

/-- dedupe_preserve (scrape_auctions.py lines 128-139): skip falsy items,
strip each value, skip values that are empty or already seen, preserve
first-seen order.  The seen-set and the result list always hold the same
values, so a single accumulator models both. -/
def dedupeAux (seen : List String) : List String → List String
  | [] => []
  | item :: rest =>
      if item = "" then dedupeAux seen rest
      else
        let v := pyStrip item
        if v = "" || v ∈ seen then dedupeAux seen rest
        else v :: dedupeAux (seen ++ [v]) rest

/-- dedupe_preserve entry point. -/
def dedupe_preserve (values : List String) : List String :=
  dedupeAux [] values

/-- Characters permitted in a URL scheme name (approximation of RFC 3986 as
urllib accepts it; first character must additionally be a letter). -/
def isSchemeChar (c : Char) : Bool :=
  c.isAlphanum || c = '+' || c = '-' || c = '.'

/-- Leading "scheme:" prefix of a URL, if present. -/
def schemeOf (url : String) : Option String :=
  let cs := url.toList
  let pre := cs.takeWhile isSchemeChar
  match cs.drop pre.length with
  | ':' :: _ =>
      match pre with
      | [] => none
      | c :: _ => if c.isAlpha then some (String.mk pre) else none
  | _ => none

/-- urlparse(url).netloc: the authority component follows "//" after an
optional scheme and runs to the next '/', '?' or '#'; a URL without "//"
has an empty netloc. -/
def netloc (url : String) : String :=
  let rest :=
    match schemeOf url with
    | some s => url.toList.drop (s.length + 1)
    | none => url.toList
  match rest with
  | '/' :: '/' :: cs =>
      String.mk (cs.takeWhile (fun c => c ≠ '/' && c ≠ '?' && c ≠ '#'))
  | _ => ""

/-- is_same_host (scrape_auctions.py lines 514-515). -/
def is_same_host (base_url target_url : String) : Bool :=
  netloc base_url = netloc target_url

/-- Path-and-after part of an absolute URL: everything after scheme://netloc. -/
def pathPart (url : String) : String :=
  match schemeOf url with
  | some s => String.mk (url.toList.drop (s.length + 3 + (netloc url).length))
  | none => url

/-- Directory prefix of a path: up to and including the last '/', or "/"
when the path has no slash (the base of an http URL). -/
def dirOf (path : List Char) : List Char :=
  match (path.reverse.dropWhile (fun c => c ≠ '/')).reverse with
  | [] => ['/']
  | d => d

/-- Model of urllib.parse.urljoin for the URL shapes this program joins:
an absolute href replaces the base; a protocol-relative href keeps the
base scheme; a root-relative href keeps scheme and host; any other href
replaces the last path segment of the base. -/
def pyUrljoin (base href : String) : String :=
  if (schemeOf href).isSome then href
  else if strStartsWith href "//" then
    (match schemeOf base with | some s => s | none => "") ++ ":" ++ href
  else
    let pre := (match schemeOf base with | some s => s | none => "") ++ "://" ++ netloc base
    if strStartsWith href "/" then pre ++ href
    else pre ++ String.mk (dirOf (pathPart base).toList) ++ href

/-- collect_links (scrape_auctions.py lines 518-527): for each anchor href,
strip it, skip empty and fragment-only hrefs, resolve against the base URL
and keep the result only when its host equals the base host. -/
def collect_links (base_url : String) (hrefs : List String) : List String :=
  hrefs.filterMap (fun h =>
    let href := pyStrip h
    if href = "" || strStartsWith href "#" then none
    else
      let absUrl := pyUrljoin base_url href
      if is_same_host base_url absUrl then some absUrl else none)

/-- TECHLIQUIDATORS_PATTERN = /detail/[^/]+/[^/?#]+ matched at the head
of the (lowercased, for re.I) character list.  Backtracking below the
maximal [^/]+ run cannot help because the pattern then requires '/', which
a shorter run would place a non-'/' character in front of. -/
def tlDetailAt (cs : List Char) : Bool :=
  ("/detail/".toList).isPrefixOf cs &&
    (let rest := cs.drop 8
     let seg := rest.takeWhile (fun c => c ≠ '/')
     !seg.isEmpty &&
       (match rest.drop seg.length with
        | '/' :: d :: _ => d ≠ '/' && d ≠ '?' && d ≠ '#'
        | _ => false))

/-- Leftmost search for TECHLIQUIDATORS_PATTERN (case-insensitive). -/
def tlDetailSearch : List Char → Bool
  | [] => false
  | c :: cs => tlDetailAt (c :: cs) || tlDetailSearch cs

/-- A compiled URL pattern of the techliquidators SiteConfig, as a
predicate: pattern.search(link) is not None. -/
def techliquidators_detail_pattern (link : String) : Bool :=
  tlDetailSearch (pyLower link).toList

/-- Pagination pattern /lots/\? of the techliquidators SiteConfig: the
regex is a literal string search for "/lots/?". -/
def tl_lots_pattern (link : String) : Bool :=
  strContains link "/lots/?"

/-- Pagination pattern page= shared by both SiteConfigs. -/
def page_pattern (link : String) : Bool :=
  strContains link "page="

/-- find_detail_links (scrape_auctions.py lines 542-549): keep links
matched by any pattern (the inner break makes this a simple filter). -/
def find_detail_links (links : List String) (patterns : List (String → Bool)) : List String :=
  links.filter (fun link => patterns.any (fun p => p link))

/-- find_pagination_links (scrape_auctions.py lines 552-559): identical
structure to find_detail_links over the pagination pattern list. -/
def find_pagination_links (links : List String) (patterns : List (String → Bool)) : List String :=
  links.filter (fun link => patterns.any (fun p => p link))

/-- One row of the bid-history table as built by parse_bid_history
(scrape_auctions.py lines 252-262): the three td texts of a row. -/
structure BidRow where
  customer : String
  bid : String
  date : String
deriving DecidableEq, Repr

/-- The name/description content the ld_json loop of
parse_techliquidators_detail (lines 301-313) extracts from one
application/ld+json payload, whether the payload is a dict or a list of
dicts; a field the payload does not provide is none. -/
structure LdPayload where
  ldName : Option String
  ldDescription : Option String
deriving DecidableEq, Repr

/-- Values stored in the listing-record dict.  vNone models a key that is
present with Python None, which is distinct from an absent key. -/
inductive Val where
  | vNone : Val
  | vStr : String → Val
  | vDec : Dec → Val
  | vInt : Int → Val
  | vStrList : List String → Val
  | vPairs : List KvPair → Val
  | vStrMap : List (String × String) → Val
  | vRow : BidRow → Val
  | vRows : List BidRow → Val
  | vLd : List LdPayload → Val
deriving DecidableEq, Repr

/-- Python truthiness of a stored value. -/
def pyTruthy : Val → Bool
  | Val.vNone => false
  | Val.vStr s => s ≠ ""
  | Val.vDec d => d.num ≠ 0
  | Val.vInt n => n ≠ 0
  | Val.vStrList l => !l.isEmpty
  | Val.vPairs l => !l.isEmpty
  | Val.vStrMap l => !l.isEmpty
  | Val.vRow _ => true
  | Val.vRows l => !l.isEmpty
  | Val.vLd l => !l.isEmpty

/-- The listing-record dict: key present with a value, or absent. -/
def Record : Type := String → Option Val

/-- Dict item assignment result[k] = v. -/
def rset (r : Record) (k : String) (v : Val) : Record :=
  fun k' => if k' = k then some v else r k'

/-- Dict read result.get(k, d) with a default. -/
def pyGetD (r : Record) (k : String) (d : Val) : Val :=
  (r k).getD d

/-- Truthiness of result.get(k) (absent key reads as None, hence falsy). -/
def truthyAt (r : Record) (k : String) : Bool :=
  match r k with
  | some v => pyTruthy v
  | none => false

/-- Python str() restricted to the values this program ever passes to it:
the keys read through str() only ever hold strings (set from label/value
pairs or DOM attributes), and str(None) is "None".  The remaining branches
are unreachable at the call sites and map to "". -/
def pyStr : Val → String
  | Val.vStr s => s
  | Val.vNone => "None"
  | _ => ""

/-- Python truthiness of an optional string (None and "" are falsy). -/
def strTruthy : Option String → Bool
  | none => false
  | some s => s ≠ ""

/-- Python `a or b` on optional strings: b when a is falsy. -/
def pyOrStr (a b : Option String) : Option String :=
  if strTruthy a then a else b

/-- A present string becomes vStr, Python None becomes vNone. -/
def optStrVal : Option String → Val
  | some s => Val.vStr s
  | none => Val.vNone

/-- A parsed decimal becomes vDec, a parse miss becomes vNone. -/
def optDecVal : Option Dec → Val
  | some d => Val.vDec d
  | none => Val.vNone

/-- A parsed integer becomes vInt, a parse miss becomes vNone. -/
def optIntVal : Option Int → Val
  | some n => Val.vInt n
  | none => Val.vNone

/-- extract_techliquidators_id pattern /detail/([^/]+)/ anchored at the
head: the captured segment must be nonempty and followed by '/'. -/
def tlIdAt (cs : List Char) : Option String :=
  if ("/detail/".toList).isPrefixOf cs then
    let rest := cs.drop 8
    let seg := rest.takeWhile (fun c => c ≠ '/')
    if seg.isEmpty then none
    else
      match rest.drop seg.length with
      | '/' :: _ => some (String.mk seg)
      | _ => none
  else none

/-- Leftmost search for the extract_techliquidators_id pattern. -/
def tlIdSearch : List Char → Option String
  | [] => none
  | c :: cs =>
      match tlIdAt (c :: cs) with
      | some s => some s
      | none => tlIdSearch cs

/-- extract_techliquidators_id (scrape_auctions.py lines 483-487),
case-insensitive search, group lowercased (searching the lowercased URL
yields the lowercased group directly on ASCII input). -/
def extract_techliquidators_id (url : String) : Option String :=
  tlIdSearch (pyLower url).toList

/-- One iteration of the ld_json loop of parse_techliquidators_detail
(lines 302-319) acting on the running (title, description) pair: a truthy
ld name replaces a truthy title that starts with "techliquidators"
(case-folded); a truthy ld description replaces a truthy description that
starts with "source discounted", then fills a falsy description. -/
def ldStep (td : Option String × Option String) (p : LdPayload) :
    Option String × Option String :=
  let t := td.1
  let d := td.2
  let t' :=
    if strTruthy p.ldName && strTruthy t &&
        strStartsWith (pyLower (t.getD "")) "techliquidators" then p.ldName else t
  let d1 :=
    if strTruthy p.ldDescription && strTruthy d &&
        strStartsWith (pyLower (d.getD "")) "source discounted" then p.ldDescription else d
  let d2 := if strTruthy p.ldDescription && !strTruthy d1 then p.ldDescription else d1
  (t', d2)

/-- The soup-derived inputs of parse_techliquidators_detail: each field is
the output of one BeautifulSoup helper applied to the page, which is the
shallow-embedding boundary (the HTML parser itself is not modelled).
outline keys are already normalized and outline values nonempty, as
parse_outline_fields guarantees; pricing holds the attribute dict of
parse_pricing_box_attrs. -/
structure DetailInputs where
  listingTitle : Option String
  ogTitle : Option String
  ogDescription : Option String
  h1 : Option String
  ogImages : List String
  thumbImages : List String
  pairs : List KvPair
  outline : List (String × String)
  pricing : List (String × String)
  bidHistory : List BidRow
  manifestHref : Option String
  ldJson : List LdPayload

/-- The loop writing every normalized pair into the record (lines 337-338). -/
def applyNormalized (r : Record) (l : List (String × String)) : Record :=
  l.foldl (fun r kv => rset r kv.1 (Val.vStr kv.2)) r

/-- Guarded record write used for outline lot_size and all pricing-box
attributes: set the key only when the attribute is present and truthy. -/
def setFromAttr (r : Record) (k : String) (o : Option String) : Record :=
  match o with
  | some v => if v ≠ "" then rset r k (Val.vStr v) else r
  | none => r

/-- Guarded record write used for outline condition and warehouse (lines
340-343): set only when the key is absent and the outline value truthy. -/
def setIfAbsentOutline (r : Record) (k : String) (o : Option String) : Record :=
  match r k, o with
  | none, some c => if c ≠ "" then rset r k (Val.vStr c) else r
  | _, _ => r

/-- The pricing-attribute block of lines 347-359: when the pricing dict is
nonempty, write each truthy attribute to its canonical field. -/
def pricingBlock (pricing : List (String × String)) (r : Record) : Record :=
  if pricing.isEmpty then r
  else
    let r := setFromAttr r "lot_id" (pricing.lookup "listing-name")
    let r := setFromAttr r "items_count" (pricing.lookup "items-count")
    let r := setFromAttr r "bid_count" (pricing.lookup "bid-count")
    let r := setFromAttr r "shipping_method" (pricing.lookup "shipping-method")
    let r := setFromAttr r "subtotal_cents" (pricing.lookup "subtotal-cents")
    setFromAttr r "default_shipping_cents" (pricing.lookup "default-shipping-cents")

/-- The latest-bid write of lines 361-362. -/
def latestBidWrite (bidHistory : List BidRow) (r : Record) : Record :=
  match bidHistory with
  | [] => r
  | b :: _ => rset r "latest_bid" (Val.vRow b)

/-- parse_techliquidators_detail, lines 265-362: everything before the
numeric derivation section.  The image fallback re-reading og:image when
the first loop found nothing (lines 278-281) is omitted because it queries
the same meta tags under the same truthiness test and can never add an
image. -/
def ptdBase (inp : DetailInputs) (url : String) : Record :=
  let title0 := pyOrStr inp.listingTitle (pyOrStr inp.ogTitle inp.h1)
  let images := dedupe_preserve (inp.ogImages ++ inp.thumbImages)
  let filtered_pairs := filter_pairs inp.pairs
  let normalized := normalize_pairs filtered_pairs
  let manifest_url := inp.manifestHref.map (pyUrljoin url)
  let td := inp.ldJson.foldl ldStep (title0, inp.ogDescription)
  let r : Record := fun _ => none
  let r := rset r "url" (Val.vStr url)
  let r := rset r "site" (Val.vStr "techliquidators")
  let r := rset r "auction_id" (optStrVal (extract_techliquidators_id url))
  let r := rset r "title" (optStrVal td.1)
  let r := rset r "description" (optStrVal td.2)
  let r := rset r "images" (Val.vStrList images)
  let r := rset r "raw_kv_pairs" (Val.vPairs inp.pairs)
  let r := rset r "kv_pairs" (Val.vPairs filtered_pairs)
  let r := rset r "manifest_url" (optStrVal manifest_url)
  let r := rset r "outline_fields" (Val.vStrMap inp.outline)
  let r := rset r "pricing_attrs" (Val.vStrMap inp.pricing)
  let r := rset r "bid_history" (Val.vRows inp.bidHistory)
  let r := rset r "ld_json" (Val.vLd inp.ldJson)
  let r := applyNormalized r normalized
  let r := setIfAbsentOutline r "condition" (inp.outline.lookup "condition")
  let r := setIfAbsentOutline r "warehouse" (inp.outline.lookup "warehouse")
  let r := setFromAttr r "lot_size" (inp.outline.lookup "lot size")
  let r := pricingBlock inp.pricing r
  latestBidWrite inp.bidHistory r

/-- One numeric-derivation statement result[dst] =
parse_currency(str(result.get(src, ""))), lines 364-367.  parse_currency
may raise (see its definition), and the raise propagates out of
parse_techliquidators_detail. -/
def currencyValueStep (src dst : String) (r : Record) : Except Unit Record :=
  match parse_currency (pyStr (pyGetD r src (Val.vStr ""))) with
  | Except.error e => Except.error e
  | Except.ok v => Except.ok (rset r dst (optDecVal v))

/-- One statement result[dst] = parse_int(str(result.get(src, ""))),
lines 368-369. -/
def intValueStep (src dst : String) (r : Record) : Record :=
  rset r dst (optIntVal (parse_int (pyStr (pyGetD r src (Val.vStr "")))))

/-- The orig-retail title block, lines 371-377: when the listing title is
truthy and contains "orig. retail" case-folded, record it, parse a
currency out of it (an uncaught raise is possible here too) and backfill
falsy msrp_value / retail_value_value from the parsed value. -/
def origRetailStep (listing_title : Option String) (r : Record) : Except Unit Record :=
  match listing_title with
  | some lt =>
      if lt ≠ "" && strContains (pyLower lt) "orig. retail" then
        match parse_currency lt with
        | Except.error e => Except.error e
        | Except.ok v =>
            let r := rset r "orig_retail" (Val.vStr lt)
            let r := rset r "orig_retail_value" (optDecVal v)
            let r :=
              if !truthyAt r "msrp_value" then
                rset r "msrp_value" ((r "orig_retail_value").getD Val.vNone)
              else r
            let r :=
              if !truthyAt r "retail_value_value" then
                rset r "retail_value_value" ((r "orig_retail_value").getD Val.vNone)
              else r
            Except.ok r
      else Except.ok r
  | none => Except.ok r

/-- The weight block, lines 379-382. -/
def weightStep (r : Record) : Record :=
  if truthyAt r "weight" then
    match parse_weight_lbs (pyStr ((r "weight").getD Val.vNone)) with
    | some w => rset r "weight_lbs" (Val.vDec w)
    | none => r
  else r

/-- The total_items block, lines 384-387. -/
def totalItemsStep (r : Record) : Record :=
  if truthyAt r "total_items" then
    match parse_int (pyStr ((r "total_items").getD Val.vNone)) with
    | some n => rset r "total_items_value" (Val.vInt n)
    | none => r
  else r

/-- The cents-to-decimal blocks, lines 389-398: float(result[src]) / 100
inside try/except ValueError: pass. -/
def centsStep (src dst : String) (r : Record) : Record :=
  if truthyAt r src then
    match pyFloat (pyStr ((r src).getD Val.vNone)) with
    | Except.ok q => rset r dst (Val.vDec (Dec.norm q.num (q.scale + 2)))
    | Except.error _ => r
  else r

/-- The items_count block, lines 400-403. -/
def itemsCountStep (r : Record) : Record :=
  if truthyAt r "items_count" then
    match parse_int (pyStr ((r "items_count").getD Val.vNone)) with
    | some n => rset r "items_count_value" (Val.vInt n)
    | none => r
  else r

/-- The bid-value list comprehension of lines 406-410: parse_currency over
every row's bid text (every row is a dict, so the isinstance guard always
holds); a raise in any element propagates. -/
def pcBids : List BidRow → Except Unit (List (Option Dec))
  | [] => Except.ok []
  | b :: bs =>
      match parse_currency b.bid, pcBids bs with
      | Except.ok v, Except.ok vs => Except.ok (v :: vs)
      | Except.error e, _ => Except.error e
      | _, Except.error e => Except.error e

/-- The bid-history fallback block, lines 405-413: when a bid-history list
was stored, parse all its bid texts, drop the misses, and if any value
remains while current_bid_value is falsy, overwrite current_bid_value with
the first parsed value. -/
def bidFallbackStep (r : Record) : Except Unit Record :=
  if truthyAt r "bid_history" then
    let rows := match r "bid_history" with | some (Val.vRows rows) => rows | _ => []
    match pcBids rows with
    | Except.error e => Except.error e
    | Except.ok parsed =>
        match parsed.filterMap id with
        | [] => Except.ok r
        | v :: _ =>
            Except.ok (if !truthyAt r "current_bid_value" then
                         rset r "current_bid_value" (Val.vDec v)
                       else r)
  else Except.ok r

/-- The numeric-derivation suffix of parse_techliquidators_detail,
lines 364-415, in source statement order. -/
def ptdValues (listing_title : Option String) (r : Record) : Except Unit Record :=
  match currencyValueStep "msrp" "msrp_value" r with
  | Except.error e => Except.error e
  | Except.ok r =>
  match currencyValueStep "retail_value" "retail_value_value" r with
  | Except.error e => Except.error e
  | Except.ok r =>
  match currencyValueStep "current_bid" "current_bid_value" r with
  | Except.error e => Except.error e
  | Except.ok r =>
  match currencyValueStep "buyer_premium" "buyer_premium_value" r with
  | Except.error e => Except.error e
  | Except.ok r =>
  let r := intValueStep "quantity" "quantity_value" r
  let r := intValueStep "pallet_count" "pallet_count_value" r
  match origRetailStep listing_title r with
  | Except.error e => Except.error e
  | Except.ok r =>
  let r := weightStep r
  let r := totalItemsStep r
  let r := centsStep "subtotal_cents" "lot_price_value" r
  let r := centsStep "default_shipping_cents" "default_shipping_value" r
  let r := itemsCountStep r
  bidFallbackStep r

/-- parse_techliquidators_detail (scrape_auctions.py lines 265-415) over
the soup-derived inputs; Except.error models an uncaught ValueError
escaping the function. -/
def parse_techliquidators_detail (inp : DetailInputs) (url : String) :
    Except Unit Record :=
  ptdValues inp.listingTitle (ptdBase inp url)

/-- Terminal condition of the listing crawl loop: the queue drained, the
page budget was hit, or the modelling fuel ran out (the last does not
correspond to a source behaviour; every theorem below supplies enough
fuel). -/
inductive CrawlEnd where
  | exhausted : CrawlEnd
  | budgetReached : CrawlEnd
  | outOfFuel : CrawlEnd
deriving DecidableEq, Repr

/-- The break condition of line 671: `if max_pages and len(visited) >
max_pages` — Python truthiness makes max_pages = 0 equivalent to no
budget. -/
def budgetHit (maxPages : Option Nat) (visitedCount : Nat) : Bool :=
  match maxPages with
  | none => false
  | some n => n ≠ 0 && visitedCount > n

/-- Output of crawl_listing_pages together with the fetch trace. -/
structure CrawlResult where
  detailUrls : List String
  fetched : List String
  endState : CrawlEnd
deriving Repr

/-- The crawl loop of crawl_listing_pages (scrape_auctions.py lines
655-689).  getPage url returns the combined link list of collect_links and
extract_links_from_html for the fetched page, or none when the fetch
raises RequestException (which the source logs and skips).  The queue,
visited set (insertion order kept), detail-URL accumulator and fetch trace
follow the source exactly; fuel only bounds the recursion. -/
def crawlAux (getPage : String → Option (List String))
    (detailPats pagPats : List (String → Bool)) (maxPages : Option Nat) :
    Nat → List String → List String → List String → List String → CrawlResult
  | 0, _, _, details, fetched => ⟨details, fetched, CrawlEnd.outOfFuel⟩
  | _ + 1, [], _, details, fetched => ⟨details, fetched, CrawlEnd.exhausted⟩
  | fuel + 1, url :: rest, visited, details, fetched =>
      if url ∈ visited then
        crawlAux getPage detailPats pagPats maxPages fuel rest visited details fetched
      else
        let visited' := visited ++ [url]
        if budgetHit maxPages visited'.length then
          ⟨details, fetched, CrawlEnd.budgetReached⟩
        else
          match getPage url with
          | none =>
              crawlAux getPage detailPats pagPats maxPages fuel rest visited' details fetched
          | some links =>
              crawlAux getPage detailPats pagPats maxPages fuel
                (rest ++ find_pagination_links links pagPats) visited'
                (details ++ find_detail_links links detailPats)
                (fetched ++ [url])

/-- crawl_listing_pages: run the loop from the start URLs and dedupe the
accumulated detail URLs (line 689). -/
def crawl_listing_pages (getPage : String → Option (List String))
    (detailPats pagPats : List (String → Bool)) (maxPages : Option Nat)
    (startUrls : List String) (fuel : Nat) : CrawlResult :=
  let r := crawlAux getPage detailPats pagPats maxPages fuel startUrls [] [] []
  ⟨dedupe_preserve r.detailUrls, r.fetched, r.endState⟩

/-- One line of the index.jsonl log as load_jsonl sees it: a line that
json-parses to a record, a line that fails to parse (corrupted), or a line
that strips to empty.  append_jsonl always writes entry lines, and
json.dumps/json.loads round-tripping is modelled as exact. -/
inductive LogLine where
  | entry : Record → LogLine
  | bad : String → LogLine
  | blank : LogLine

/-- load_jsonl (scrape_auctions.py lines 624-637): blank lines and lines
that fail to parse are silently skipped. -/
def load_jsonl (lines : List LogLine) : List Record :=
  lines.filterMap (fun line =>
    match line with
    | LogLine.entry e => some e
    | LogLine.bad _ => none
    | LogLine.blank => none)

/-- The resume skip-set of main (line 786): the truthy url values of the
loaded entries.  Every url this program ever stores is a string, so the
set is modelled as the list of its string members. -/
def existing_urls (entries : List Record) : List String :=
  entries.filterMap (fun e =>
    match e "url" with
    | some (Val.vStr s) => if s ≠ "" then some s else none
    | _ => none)

/-- The detail loop of main (scrape_auctions.py lines 790-837), modelled
without redirects (the final response URL equals the requested URL) and
without the filesystem side artifacts (raw.html, auction.json/csv,
manifest download), which the claims do not concern.  F url is the fetched
page body or none when the fetch raises; parseD html url is
config.parse_detail; ts is the run timestamp written as extracted_at.
Returns the appended entries and the list of URLs for which a detail fetch
was attempted, threading the growing skip-set exactly as the source
mutates existing_urls. -/
def processDetails (F : String → Option String) (parseD : String → String → Record)
    (ts : String) (resume : Bool) :
    List String → List String → List Record × List String
  | [], _ => ([], [])
  | url :: rest, ex =>
      if resume && url ∈ ex then processDetails F parseD ts resume rest ex
      else
        match F url with
        | none =>
            let pr := processDetails F parseD ts resume rest ex
            (pr.1, url :: pr.2)
        | some html =>
            let data := rset (parseD html url) "extracted_at" (Val.vStr ts)
            let pr := processDetails F parseD ts resume rest (ex ++ [url])
            (data :: pr.1, url :: pr.2)

/-- SUMMARY_FIELDS (scrape_auctions.py lines 65-83). -/
def SUMMARY_FIELDS : List String :=
  ["site", "url", "title", "auction_id", "lot_id", "lot_number",
   "current_bid_value", "lot_price_value", "msrp_value", "retail_value_value",
   "items_count_value", "total_items_value", "condition", "warehouse",
   "location", "auction_end", "manifest_url"]

/-- Cell text the csv writer produces for one stored value (None prints
empty; numeric rendering is canonical, no claim depends on its format). -/
def csvCell : Val → String
  | Val.vNone => ""
  | Val.vStr s => s
  | Val.vDec d => toString d.num ++ "e-" ++ toString d.scale
  | Val.vInt n => toString n
  | _ => ""

/-- Projection of one entry onto the fixed column set (line 645):
row = the entry's value at each summary field, defaulting to "". -/
def summaryRow (e : Record) : List String :=
  SUMMARY_FIELDS.map (fun f =>
    match e f with
    | some v => csvCell v
    | none => "")

/-- write_summary_csv (scrape_auctions.py lines 640-646): a header of
exactly SUMMARY_FIELDS followed by one projected row per entry. -/
def write_summary_csv (entries : List Record) : List (List String) :=
  SUMMARY_FIELDS :: entries.map summaryRow

/-- Truncation of the detail-URL list by --max-auctions (lines 779-780);
Python truthiness makes max_auctions = 0 equivalent to absent. -/
def pyTruncate (maxAuctions : Option Nat) (l : List String) : List String :=
  match maxAuctions with
  | some n => if n ≠ 0 then l.take n else l
  | none => l

/-- Everything main produces that the claims observe. -/
structure MainResult where
  detailUrls : List String
  listingFetched : List String
  newEntries : List Record
  log : List LogLine
  attempts : List String
  summary : List (List String)
  exitCode : Int

/-- main (scrape_auctions.py lines 751-843) from the point the session is
configured: crawl the listing pages, truncate, load the existing log,
build the skip-set, run the detail loop, append the new entries to the
log, regenerate the summary over existing plus new entries, and return 0
(the function's only return statement). -/
def runMain (getPage : String → Option (List String))
    (detailPats pagPats : List (String → Bool))
    (F : String → Option String) (parseD : String → String → Record)
    (ts : String) (startUrls : List String)
    (maxPages maxAuctions : Option Nat) (resume : Bool) (fuel : Nat)
    (log : List LogLine) : MainResult :=
  let c := crawl_listing_pages getPage detailPats pagPats maxPages startUrls fuel
  let detailUrls := pyTruncate maxAuctions c.detailUrls
  let existingEntries := load_jsonl log
  let exUrls := existing_urls existingEntries
  let pr := processDetails F parseD ts resume detailUrls exUrls
  { detailUrls := detailUrls
    listingFetched := c.fetched
    newEntries := pr.1
    log := log ++ pr.1.map LogLine.entry
    attempts := pr.2
    summary := write_summary_csv (existingEntries ++ pr.1)
    exitCode := 0 }

/-- Number of log entries whose url field is the given URL. -/
def countUrl (log : List LogLine) (u : String) : Nat :=
  (load_jsonl log).countP (fun e => decide (e "url" = some (Val.vStr u)))

/-- The record keys written by the numeric-derivation suffix ptdValues. -/
def VALUE_KEYS : List String :=
  ["msrp_value", "retail_value_value", "current_bid_value",
   "buyer_premium_value", "quantity_value", "pallet_count_value",
   "orig_retail", "orig_retail_value", "weight_lbs", "total_items_value",
   "lot_price_value", "default_shipping_value", "items_count_value"]

/-- Detail-page inputs with every soup-derived source empty. -/
def emptyDetailInputs : DetailInputs :=
  ⟨none, none, none, none, [], [], [], [], [], [], none, []⟩

/-- Page with a tier-1 edit-listing-title starting with "TechLiquidators"
and a structured-data payload carrying a name. -/
def ldTitleInputs : DetailInputs :=
  { emptyDetailInputs with
      listingTitle := some "TechLiquidators Lot"
      ldJson := [⟨some "Better Name", none⟩] }

/-- Page carrying every tier-1 source at once, a tier-2 pair competing for
lot_id, and a structured-data payload, with a title that does not start
with "techliquidators". -/
def richDetailInputs : DetailInputs :=
  { emptyDetailInputs with
      listingTitle := some "Nice Pallet"
      pairs := [⟨"Lot ID", "pair-lot"⟩, ⟨"Location", "KY"⟩]
      outline := [("condition", "Salvage"), ("warehouse", "KY-1")]
      pricing := [("listing-name", "BB123"), ("items-count", "42"),
                  ("bid-count", "7"), ("shipping-method", "freight"),
                  ("subtotal-cents", "12345"), ("default-shipping-cents", "999")]
      manifestHref := some "/m.xlsx"
      ldJson := [⟨some "LD Name", some "LD Desc"⟩] }

/-- Page whose explicit current-bid pair parses to zero while a bid-history
row is present. -/
def zeroBidInputs : DetailInputs :=
  { emptyDetailInputs with
      pairs := [⟨"Current Bid", "$0.00"⟩]
      bidHistory := [⟨"alice", "$5.00", "d1"⟩] }

/-- Page whose explicit current-bid pair parses to a nonzero value while a
bid-history row is present. -/
def nonzeroBidInputs : DetailInputs :=
  { emptyDetailInputs with
      pairs := [⟨"Current Bid", "$7.50"⟩]
      bidHistory := [⟨"alice", "$5.00", "d1"⟩] }

/-- Entry carrying a field outside the fixed summary column set. -/
def extraFieldEntry : Record := fun k =>
  if k = "url" then some (Val.vStr "u1")
  else if k = "zebra_extra" then some (Val.vStr "ZZZ") else none

/-- Two entries agreeing on every summary field but differing elsewhere. -/
def junkEntryA : Record := fun k =>
  if k = "title" then some (Val.vStr "T")
  else if k = "junk" then some (Val.vStr "J1") else none

/-- Companion of junkEntryA with a different junk value. -/
def junkEntryB : Record := fun k =>
  if k = "title" then some (Val.vStr "T")
  else if k = "junk" then some (Val.vStr "J2") else none

/-- Listing graph with 5 reachable pages, each linking to the next. -/
def chainGraph : String → Option (List String) := fun u =>
  if u = "p1" then some ["p2"]
  else if u = "p2" then some ["p3"]
  else if u = "p3" then some ["p4"]
  else if u = "p4" then some ["p5"]
  else if u = "p5" then some []
  else none

/-- Pattern matching every link. -/
def anyPat : String → Bool := fun _ => true

/-- A listing source on which every fetch fails. -/
def unreachableGraph : String → Option (List String) := fun _ => none

/-- A detail fetcher on which every fetch fails. -/
def unreachableFetch : String → Option String := fun _ => none

/-- A detail fetcher that always succeeds with a fixed body. -/
def constFetch : String → Option String := fun _ => some "html"

/-- A minimal detail parser storing only the record's own URL, used to
instantiate the parse_detail parameter in witnesses. -/
def urlOnlyParse : String → String → Record := fun _ u k =>
  if k = "url" then some (Val.vStr u) else none

/-- Detail patterns of the techliquidators SiteConfig (line 736). -/
def tlDetailPats : List (String → Bool) := [techliquidators_detail_pattern]

/-- Pagination patterns of the techliquidators SiteConfig (line 737). -/
def tlPagPats : List (String → Bool) := [tl_lots_pattern, page_pattern]

/-- Base listing page of the link-classification example. -/
def clBase : String := "https://www.techliquidators.com/lots/?auction=true"

/-- Hrefs of the link-classification example: three same-host detail links,
two same-host pagination links and one cross-host link. -/
def clHrefs : List String :=
  ["/detail/12345/pallet-a",
   "https://www.techliquidators.com/detail/67890/pallet-b",
   "/detail/24680/pallet-c",
   "/lots/?page=2",
   "/lots/?page=3",
   "https://www.liquidation.com/detail/99999/pallet-x"]

/-- Start URL of the two-run resume example. -/
def resumeStart : String := "https://h.com/lots/?auction=true"

/-- Listing graph of the two-run resume example: the single listing page
links to two detail pages. -/
def resumeGraph : String → Option (List String) := fun u =>
  if u = resumeStart then
    some ["https://h.com/detail/a1/x", "https://h.com/detail/a2/y"]
  else none

theorem rset_self (r : Record) (k : String) (v : Val) : rset r k v k = some v := by
  simp [rset]

theorem rset_ne (r : Record) (k k' : String) (v : Val) (h : k' ≠ k) :
    rset r k v k' = r k' := by
  simp [rset, h]

theorem collect_links_same_host (base : String) (hrefs : List String) (u : String)
    (hu : u ∈ collect_links base hrefs) : netloc u = netloc base := by
  unfold collect_links at hu
  obtain ⟨a, -, hf⟩ := List.mem_filterMap.1 hu
  dsimp only at hf
  split at hf
  · exact Option.noConfusion hf
  · split at hf
    · rename_i hsame
      rw [Option.some.injEq] at hf
      subst hf
      unfold is_same_host at hsame
      exact (of_decide_eq_true hsame).symm
    · exact Option.noConfusion hf

theorem find_detail_sub (links : List String) (pats : List (String → Bool)) (u : String)
    (hu : u ∈ find_detail_links links pats) : u ∈ links :=
  (List.mem_filter.1 hu).1

theorem find_pagination_sub (links : List String) (pats : List (String → Bool)) (u : String)
    (hu : u ∈ find_pagination_links links pats) : u ∈ links :=
  (List.mem_filter.1 hu).1

/-- C3: the three field parsers are claimed to be total functions that
return a parsed value or null and never raise.  parse_int and
parse_weight_lbs are (their int()/float() conversions sit inside
try/except ValueError, as the sibling evaluations here exercise), but
parse_currency omits the guard: on input consisting of a dollar sign
followed by a comma, the capture group is "," and float("") raises an
uncaught ValueError, modelled as Except.error. -/
theorem parse_currency_raises_on_comma_group :
    parse_currency "$," = Except.error () ∧
    parse_currency "no price" = Except.ok none ∧
    parse_currency "Retail: $1,234.50 each" = Except.ok (some ⟨12345, 1⟩) ∧
    parse_weight_lbs "Approx. 42.5 lb" = some ⟨425, 1⟩ ∧
    parse_weight_lbs ",, lb" = none ∧
    parse_int "12a" = none ∧
    parse_int "1,234 units" = some 1234 := by
  refine ⟨by decide, by decide, by decide, by decide, by decide, by decide, by decide⟩

/-- C9: a label/value pair whose normalized label is not a key of
LABEL_MAP contributes nothing: inserting or removing such a pair anywhere
in the pair list leaves the mapping returned by normalize_pairs
unchanged. -/
theorem unmapped_labels_inert (l1 l2 : List KvPair) (p : KvPair)
    (h : LABEL_MAP.lookup (normalize_label p.label) = none) :
    normalize_pairs (l1 ++ p :: l2) = normalize_pairs (l1 ++ l2) := by
  simp only [normalize_pairs, List.foldl_append, List.foldl_cons, npStep, h]

/-- Witness for C9: a pair labelled "Unmapped  Label" is inert between a
condition pair and a units pair. -/
theorem unmapped_labels_inert_witness :
    LABEL_MAP.lookup (normalize_label "Unmapped  Label") = none ∧
    normalize_pairs ([⟨"Condition", "New"⟩] ++ ⟨"Unmapped  Label", "x"⟩ :: [⟨"Units", "4"⟩]) =
      normalize_pairs ([⟨"Condition", "New"⟩] ++ [⟨"Units", "4"⟩]) :=
  ⟨by decide,
   unmapped_labels_inert [⟨"Condition", "New"⟩] [⟨"Units", "4"⟩]
     ⟨"Unmapped  Label", "x"⟩ (by decide)⟩

/-- C8: a discovered link whose host differs from the fetched page's host
is excluded from both candidate sets (every collected link shares the base
host, and both classifiers only select collected links); on the concrete
page with 3 same-host detail links, 2 same-host pagination links and 1
cross-host link, the classifier returns exactly the 3 detail links and the
cross-host link is in neither set. -/
theorem cross_host_links_excluded :
    (∀ (base : String) (hrefs : List String) (pats : List (String → Bool)) (u : String),
        u ∈ find_detail_links (collect_links base hrefs) pats →
          netloc u = netloc base) ∧
    (∀ (base : String) (hrefs : List String) (pats : List (String → Bool)) (u : String),
        u ∈ find_pagination_links (collect_links base hrefs) pats →
          netloc u = netloc base) ∧
    find_detail_links (collect_links clBase clHrefs) tlDetailPats =
      ["https://www.techliquidators.com/detail/12345/pallet-a",
       "https://www.techliquidators.com/detail/67890/pallet-b",
       "https://www.techliquidators.com/detail/24680/pallet-c"] ∧
    find_pagination_links (collect_links clBase clHrefs) tlPagPats =
      ["https://www.techliquidators.com/lots/?page=2",
       "https://www.techliquidators.com/lots/?page=3"] ∧
    "https://www.liquidation.com/detail/99999/pallet-x" ∉
      find_detail_links (collect_links clBase clHrefs) tlDetailPats ∧
    "https://www.liquidation.com/detail/99999/pallet-x" ∉
      find_pagination_links (collect_links clBase clHrefs) tlPagPats := by
  refine ⟨?_, ?_, by decide, by decide, by decide, by decide⟩
  · intro base hrefs pats u hu
    exact collect_links_same_host base hrefs u (find_detail_sub _ _ _ hu)
  · intro base hrefs pats u hu
    exact collect_links_same_host base hrefs u (find_pagination_sub _ _ _ hu)

/-- Witness for C8: the host-preservation conjuncts applied to the first
classified detail link of the concrete page. -/
theorem cross_host_links_excluded_witness :
    netloc "https://www.techliquidators.com/detail/12345/pallet-a" = netloc clBase ∧
    netloc "https://www.techliquidators.com/lots/?page=2" = netloc clBase :=
  ⟨cross_host_links_excluded.1 clBase clHrefs tlDetailPats _ (by decide),
   cross_host_links_excluded.2.1 clBase clHrefs tlPagPats _ (by decide)⟩

/-- C6: on the 5-page chain graph, a crawl with max pages = 2 fetches
exactly the first 2 listing pages and terminates with the budget hit,
while the same crawl without a budget drains all 5 reachable pages; the
fetched count at the budget stop equals the configured maximum. -/
theorem budget_crawl_visits_exactly_two :
    (crawl_listing_pages chainGraph [anyPat] [anyPat] (some 2) ["p1"] 10).fetched =
      ["p1", "p2"] ∧
    (crawl_listing_pages chainGraph [anyPat] [anyPat] (some 2) ["p1"] 10).endState =
      CrawlEnd.budgetReached ∧
    (crawl_listing_pages chainGraph [anyPat] [anyPat] (some 2) ["p1"] 10).fetched.length = 2 ∧
    (crawl_listing_pages chainGraph [anyPat] [anyPat] none ["p1"] 10).fetched =
      ["p1", "p2", "p3", "p4", "p5"] ∧
    (crawl_listing_pages chainGraph [anyPat] [anyPat] none ["p1"] 10).endState =
      CrawlEnd.exhausted := by
  refine ⟨by decide, by decide, by decide, by decide, by decide⟩

/-- C4 counterexample: against a listing source on which no page can be
fetched at all, main fetches zero listing pages yet still returns exit
status 0, refuting the claimed non-zero terminal status. -/
theorem main_exit_zero_when_unreachable :
    (runMain unreachableGraph tlDetailPats tlPagPats unreachableFetch urlOnlyParse
        "t" ["https://h.com/lots/"] none none false 10 []).listingFetched = [] ∧
    (runMain unreachableGraph tlDetailPats tlPagPats unreachableFetch urlOnlyParse
        "t" ["https://h.com/lots/"] none none false 10 []).exitCode = 0 :=
  ⟨by decide, by decide⟩

/-- C4 amended: main returns success (0) after writing best-effort output
whatever happened during the run; there is no non-zero exit path, so even
total listing-source unavailability reports 0. -/
theorem main_always_exits_zero (getPage : String → Option (List String))
    (dp pp : List (String → Bool)) (F : String → Option String)
    (parseD : String → String → Record) (ts : String) (startUrls : List String)
    (mp ma : Option Nat) (resume : Bool) (fuel : Nat) (log : List LogLine) :
    (runMain getPage dp pp F parseD ts startUrls mp ma resume fuel log).exitCode = 0 :=
  rfl

/-- C5 counterexample: an entry carrying the field zebra_extra is
summarized with exactly the fixed columns; the extra field appears neither
as a column nor as a value, refuting the claimed appended extra columns. -/
theorem summary_drops_extra_field :
    write_summary_csv [extraFieldEntry] =
      [SUMMARY_FIELDS,
       ["", "u1", "", "", "", "", "", "", "", "", "", "", "", "", "", "", ""]] ∧
    "zebra_extra" ∉ SUMMARY_FIELDS :=
  ⟨by decide, by decide⟩

/-- C5 amended: the regenerated summary covers the full accumulated log
(pre-existing entries plus the run's appended entries), with header
exactly SUMMARY_FIELDS and one row per entry; a field outside the fixed
column set is dropped — rows depend only on the entry's summary-field
values. -/
theorem summary_covers_full_log_fixed_columns :
    (∀ (getPage : String → Option (List String)) (dp pp : List (String → Bool))
        (F : String → Option String) (parseD : String → String → Record)
        (ts : String) (startUrls : List String) (mp ma : Option Nat)
        (resume : Bool) (fuel : Nat) (log : List LogLine),
        (runMain getPage dp pp F parseD ts startUrls mp ma resume fuel log).summary =
          write_summary_csv (load_jsonl log ++
            (runMain getPage dp pp F parseD ts startUrls mp ma resume fuel log).newEntries)) ∧
    (∀ entries : List Record, (write_summary_csv entries).length = entries.length + 1) ∧
    (∀ entries : List Record, (write_summary_csv entries).head? = some SUMMARY_FIELDS) ∧
    (∀ e e' : Record, (∀ f ∈ SUMMARY_FIELDS, e f = e' f) → summaryRow e = summaryRow e') := by
  refine ⟨fun _ _ _ _ _ _ _ _ _ _ _ _ => rfl, fun entries => by
    simp [write_summary_csv], fun entries => rfl, fun e e' h => ?_⟩
  unfold summaryRow
  exact List.map_congr_left (fun f hf => by rw [h f hf])

/-- Witness for C5 amended: two entries agreeing on every summary field
but holding different junk fields produce the same summary row. -/
theorem summary_covers_full_log_fixed_columns_witness :
    summaryRow junkEntryA = summaryRow junkEntryB :=
  summary_covers_full_log_fixed_columns.2.2.2 junkEntryA junkEntryB (by decide)

theorem load_jsonl_append (a b : List LogLine) :
    load_jsonl (a ++ b) = load_jsonl a ++ load_jsonl b :=
  List.filterMap_append a b _

theorem load_jsonl_entries (es : List Record) :
    load_jsonl (es.map LogLine.entry) = es := by
  induction es with
  | nil => rfl
  | cons e rest ih => simp only [load_jsonl, List.map_cons, List.filterMap_cons] at *; rw [ih]

theorem dedupeAux_props (l : List String) :
    ∀ seen : List String,
      (∀ v ∈ dedupeAux seen l, v ∉ seen ∧ v ≠ "") ∧ (dedupeAux seen l).Nodup := by
  induction l with
  | nil => intro seen; exact ⟨fun v hv => absurd hv (List.not_mem_nil v), List.nodup_nil⟩
  | cons item rest ih =>
      intro seen
      by_cases h1 : item = ""
      · simpa only [dedupeAux, if_pos h1] using ih seen
      · by_cases h2 : pyStrip item = "" ∨ pyStrip item ∈ seen
        · have hb : (decide (pyStrip item = "") || decide (pyStrip item ∈ seen)) = true := by
            rcases h2 with h | h <;> simp [h]
          simpa only [dedupeAux, if_neg h1, hb, if_true] using ih seen
        · push_neg at h2
          obtain ⟨hne, hnm⟩ := h2
          have hb : (decide (pyStrip item = "") || decide (pyStrip item ∈ seen)) = false := by
            simp [hne, hnm]
          simp only [dedupeAux, if_neg h1, hb, Bool.false_eq_true, if_false]
          refine ⟨?_, ?_⟩
          · intro v hv
            rcases List.mem_cons.1 hv with rfl | hv'
            · exact ⟨hnm, hne⟩
            · have hmem := (ih (seen ++ [pyStrip item])).1 v hv'
              exact ⟨fun hc => hmem.1 (List.mem_append_left _ hc), hmem.2⟩
          · refine List.nodup_cons.2 ⟨?_, (ih (seen ++ [pyStrip item])).2⟩
            intro hc
            exact ((ih (seen ++ [pyStrip item])).1 _ hc).1
              (List.mem_append_right _ (List.mem_singleton.2 rfl))

theorem dedupe_preserve_nodup (l : List String) : (dedupe_preserve l).Nodup :=
  (dedupeAux_props l []).2

theorem dedupe_preserve_ne_empty (l : List String) :
    ∀ v ∈ dedupe_preserve l, v ≠ "" :=
  fun v hv => ((dedupeAux_props l []).1 v hv).2

theorem pyTruncate_subset (ma : Option Nat) (l : List String) :
    ∀ u ∈ pyTruncate ma l, u ∈ l := by
  intro u hu
  cases ma with
  | none => exact hu
  | some n =>
      simp only [pyTruncate] at hu
      by_cases h : n ≠ 0
      · rw [if_pos h] at hu
        exact (List.take_sublist n l).subset hu
      · rwa [if_neg h] at hu

theorem pyTruncate_nodup (ma : Option Nat) (l : List String) (h : l.Nodup) :
    (pyTruncate ma l).Nodup := by
  cases ma with
  | none => exact h
  | some n =>
      simp only [pyTruncate]
      by_cases hn : n ≠ 0
      · rw [if_pos hn]
        exact h.sublist (List.take_sublist n l)
      · rwa [if_neg hn]

theorem processDetails_skip_all (F : String → Option String)
    (parseD : String → String → Record) (ts : String) :
    ∀ (urls ex : List String), (∀ u ∈ urls, u ∈ ex) →
      processDetails F parseD ts true urls ex = ([], []) := by
  intro urls
  induction urls with
  | nil => intro ex _; rfl
  | cons v rest ih =>
      intro ex h
      have hc : (true && decide (v ∈ ex)) = true := by
        simp [h v (List.mem_cons_self v rest)]
      simp only [processDetails, hc, if_true]
      exact ih ex (fun u hu => h u (List.mem_cons_of_mem v hu))

theorem processDetails_mem_skipped (F : String → Option String)
    (parseD : String → String → Record) (ts : String)
    (hp : ∀ h u, parseD h u "url" = some (Val.vStr u)) :
    ∀ (urls ex : List String) (u : String), u ∈ ex →
      u ∉ (processDetails F parseD ts true urls ex).2 ∧
      ∀ e ∈ (processDetails F parseD ts true urls ex).1,
        e "url" ≠ some (Val.vStr u) := by
  intro urls
  induction urls with
  | nil =>
      intro ex u _
      exact ⟨List.not_mem_nil u, fun e he => absurd he (List.not_mem_nil e)⟩
  | cons v rest ih =>
      intro ex u hu
      by_cases hv : v ∈ ex
      · have hc : (true && decide (v ∈ ex)) = true := by simp [hv]
        simp only [processDetails, hc, if_true]
        exact ih ex u hu
      · have hc : (true && decide (v ∈ ex)) = false := by simp [hv]
        have hvu : v ≠ u := fun hvu => hv (hvu ▸ hu)
        simp only [processDetails, hc, if_false]
        cases hFv : F v with
        | none =>
            have h' := ih ex u hu
            refine ⟨fun hc' => ?_, h'.2⟩
            rcases List.mem_cons.1 hc' with rfl | hc''
            · exact hvu rfl
            · exact h'.1 hc''
        | some html =>
            have h' := ih (ex ++ [v]) u (List.mem_append_left _ hu)
            refine ⟨fun hc' => ?_, fun e he => ?_⟩
            · rcases List.mem_cons.1 hc' with rfl | hc''
              · exact hvu rfl
              · exact h'.1 hc''
            · rcases List.mem_cons.1 he with rfl | he'
              · rw [rset_ne _ _ _ _ (by decide), hp]
                simp only [Option.some.injEq, Val.vStr.injEq, ne_eq]
                exact hvu
              · exact h'.2 e he'

theorem existing_urls_cons_some (e : Record) (es : List Record) (v : String)
    (he : e "url" = some (Val.vStr v)) (hv : v ≠ "") :
    existing_urls (e :: es) = v :: existing_urls es := by
  simp [existing_urls, List.filterMap_cons, he, hv]

theorem processDetails_fresh (F : String → Option String)
    (parseD : String → String → Record) (ts : String)
    (hp : ∀ h u, parseD h u "url" = some (Val.vStr u)) :
    ∀ (urls ex : List String), urls.Nodup → (∀ u ∈ urls, u ∉ ex) →
      (∀ u ∈ urls, ∃ h, F u = some h) → (∀ u ∈ urls, u ≠ "") →
      (processDetails F parseD ts true urls ex).2 = urls ∧
      existing_urls (processDetails F parseD ts true urls ex).1 = urls ∧
      ∀ u', (processDetails F parseD ts true urls ex).1.countP
          (fun e => decide (e "url" = some (Val.vStr u'))) = urls.count u' := by
  intro urls
  induction urls with
  | nil =>
      intro ex _ _ _ _
      exact ⟨rfl, rfl, fun u' => rfl⟩
  | cons v rest ih =>
      intro ex hnd hfresh hF hne
      have hv : v ∉ ex := hfresh v (List.mem_cons_self v rest)
      have hc : (true && decide (v ∈ ex)) = false := by simp [hv]
      obtain ⟨html, hFv⟩ := hF v (List.mem_cons_self v rest)
      have hvrest : v ∉ rest := (List.nodup_cons.1 hnd).1
      have ih' := ih (ex ++ [v]) (List.nodup_cons.1 hnd).2
        (fun u hu => by
          intro hc'
          rcases List.mem_append.1 hc' with h' | h'
          · exact hfresh u (List.mem_cons_of_mem v hu) h'
          · exact hvrest (List.mem_singleton.1 h' ▸ hu))
        (fun u hu => hF u (List.mem_cons_of_mem v hu))
        (fun u hu => hne u (List.mem_cons_of_mem v hu))
      have hdata : (rset (parseD html v) "extracted_at" (Val.vStr ts)) "url" =
          some (Val.vStr v) := by
        rw [rset_ne _ _ _ _ (by decide), hp]
      have hvne : v ≠ "" := hne v (List.mem_cons_self v rest)
      simp only [processDetails, hc, Bool.false_eq_true, if_false, hFv]
      refine ⟨by rw [ih'.1], ?_, ?_⟩
      · rw [existing_urls_cons_some _ _ v hdata hvne, ih'.2.1]
      · intro u'
        rw [List.countP_cons, ih'.2.2 u', List.count_cons, hdata]
        by_cases hvu : v = u'
        · subst hvu; simp
        · simp [hvu, Ne.symm hvu]

theorem processDetails_refetch (F : String → Option String)
    (parseD : String → String → Record) (ts : String)
    (hp : ∀ h u, parseD h u "url" = some (Val.vStr u)) :
    ∀ (urls ex : List String) (u html : String),
      u ∈ urls → u ∉ ex → F u = some html →
      u ∈ (processDetails F parseD ts true urls ex).2 ∧
      ∃ e ∈ (processDetails F parseD ts true urls ex).1,
        e "url" = some (Val.vStr u) := by
  intro urls
  induction urls with
  | nil => intro ex u html hmem _ _; exact absurd hmem (List.not_mem_nil u)
  | cons v rest ih =>
      intro ex u html hmem hex hF
      by_cases huv : u = v
      · subst huv
        have hc : (true && decide (u ∈ ex)) = false := by simp [hex]
        simp only [processDetails, hc, Bool.false_eq_true, if_false, hF]
        refine ⟨List.mem_cons_self _ _, ⟨_, List.mem_cons_self _ _, ?_⟩⟩
        rw [rset_ne _ _ _ _ (by decide), hp]
      · have hmem' : u ∈ rest := (List.mem_cons.1 hmem).resolve_left huv
        by_cases hv : v ∈ ex
        · have hc : (true && decide (v ∈ ex)) = true := by simp [hv]
          simp only [processDetails, hc, if_true]
          exact ih ex u html hmem' hex hF
        · have hc : (true && decide (v ∈ ex)) = false := by simp [hv]
          simp only [processDetails, hc, Bool.false_eq_true, if_false]
          cases hFv : F v with
          | none =>
              obtain ⟨ha, e, he, heq⟩ := ih ex u html hmem' hex hF
              exact ⟨List.mem_cons_of_mem _ ha, e, he, heq⟩
          | some html' =>
              have hex' : u ∉ ex ++ [v] := by
                simp only [List.mem_append, List.mem_singleton, not_or]
                exact ⟨hex, huv⟩
              obtain ⟨ha, e, he, heq⟩ := ih (ex ++ [v]) u html hmem' hex' hF
              exact ⟨List.mem_cons_of_mem _ ha, e, List.mem_cons_of_mem _ he, heq⟩

theorem load_jsonl_bad_cons (s : String) (l : List LogLine) :
    load_jsonl (LogLine.bad s :: l) = load_jsonl l := by
  simp [load_jsonl, List.filterMap_cons]

theorem load_jsonl_blank_cons (l : List LogLine) :
    load_jsonl (LogLine.blank :: l) = load_jsonl l := by
  simp [load_jsonl, List.filterMap_cons]

/-- C10: load_jsonl silently skips corrupted and blank lines and never
fails, so a corrupted log line makes its record invisible to the store:
the loaded entries, the regenerated summary and the resume skip-set are
those of the log without that line; and a URL not in the skip-set that
appears among the detail URLs of a resume run is fetched again and a
fresh entry is appended for it. -/
theorem corrupted_line_invisible_and_refetched
    (l1 l2 : List LogLine) (s : String)
    (F : String → Option String) (parseD : String → String → Record)
    (ts : String) (urls ex : List String) (u html : String)
    (hp : ∀ h u', parseD h u' "url" = some (Val.vStr u'))
    (hmem : u ∈ urls) (hex : u ∉ ex) (hF : F u = some html) :
    load_jsonl (l1 ++ LogLine.bad s :: l2) = load_jsonl (l1 ++ l2) ∧
    load_jsonl (l1 ++ LogLine.blank :: l2) = load_jsonl (l1 ++ l2) ∧
    write_summary_csv (load_jsonl (l1 ++ LogLine.bad s :: l2)) =
      write_summary_csv (load_jsonl (l1 ++ l2)) ∧
    existing_urls (load_jsonl (l1 ++ LogLine.bad s :: l2)) =
      existing_urls (load_jsonl (l1 ++ l2)) ∧
    u ∈ (processDetails F parseD ts true urls ex).2 ∧
    ∃ e ∈ (processDetails F parseD ts true urls ex).1,
      e "url" = some (Val.vStr u) := by
  have hbad : load_jsonl (l1 ++ LogLine.bad s :: l2) = load_jsonl (l1 ++ l2) := by
    rw [load_jsonl_append, load_jsonl_append, load_jsonl_bad_cons]
  have hblank : load_jsonl (l1 ++ LogLine.blank :: l2) = load_jsonl (l1 ++ l2) := by
    rw [load_jsonl_append, load_jsonl_append, load_jsonl_blank_cons]
  obtain ⟨ha, he⟩ := processDetails_refetch F parseD ts hp urls ex u html hmem hex hF
  exact ⟨hbad, hblank, by rw [hbad], by rw [hbad], ha, he⟩

/-- Witness for C10: a log holding only one corrupted line loads as empty,
and the detail URL whose record was corrupted is re-fetched and
re-appended by a resume run. -/
theorem corrupted_line_invisible_and_refetched_witness :
    load_jsonl ([] ++ LogLine.bad "corrupt" :: []) = load_jsonl ([] ++ []) ∧
    "https://h.com/detail/a1/x" ∈
      (processDetails constFetch urlOnlyParse "t" true
        ["https://h.com/detail/a1/x"] []).2 ∧
    ∃ e ∈ (processDetails constFetch urlOnlyParse "t" true
        ["https://h.com/detail/a1/x"] []).1,
      e "url" = some (Val.vStr "https://h.com/detail/a1/x") := by
  have h := corrupted_line_invisible_and_refetched [] [] "corrupt"
    constFetch urlOnlyParse "t" ["https://h.com/detail/a1/x"] []
    "https://h.com/detail/a1/x" "html" (fun _ _ => rfl)
    (by decide) (by decide) rfl
  exact ⟨h.1, h.2.2.2.2.1, h.2.2.2.2.2⟩

theorem crawl_detailUrls_nodup (g : String → Option (List String))
    (dp pp : List (String → Bool)) (mp : Option Nat) (su : List String) (fuel : Nat) :
    (crawl_listing_pages g dp pp mp su fuel).detailUrls.Nodup :=
  dedupe_preserve_nodup _

theorem crawl_detailUrls_ne_empty (g : String → Option (List String))
    (dp pp : List (String → Bool)) (mp : Option Nat) (su : List String) (fuel : Nat) :
    ∀ v ∈ (crawl_listing_pages g dp pp mp su fuel).detailUrls, v ≠ "" :=
  dedupe_preserve_ne_empty _

/-- C1: in resume mode, a detail URL that already has a log entry is
neither fetched nor extracted nor re-appended, and the rest of the log is
untouched for it; consequently, running the crawl twice in resume mode
over the same (deterministic) listing source with all detail fetches
succeeding leaves one log entry per detail URL, and the second run
attempts zero detail fetches and appends nothing.  The model equates a
response's final URL with its request URL (no redirects). -/
theorem resume_idempotent
    (getPage : String → Option (List String)) (dp pp : List (String → Bool))
    (F : String → Option String) (parseD : String → String → Record)
    (ts ts' : String) (startUrls : List String) (mp ma : Option Nat) (fuel : Nat)
    (hp : ∀ h u, parseD h u "url" = some (Val.vStr u))
    (hF : ∀ u ∈ pyTruncate ma
        (crawl_listing_pages getPage dp pp mp startUrls fuel).detailUrls,
        ∃ h, F u = some h) :
    (∀ (log : List LogLine) (u : String), u ∈ existing_urls (load_jsonl log) →
        u ∉ (runMain getPage dp pp F parseD ts startUrls mp ma true fuel log).attempts ∧
        (∀ e ∈ (runMain getPage dp pp F parseD ts startUrls mp ma true fuel log).newEntries,
            e "url" ≠ some (Val.vStr u)) ∧
        countUrl (runMain getPage dp pp F parseD ts startUrls mp ma true fuel log).log u =
          countUrl log u) ∧
    (runMain getPage dp pp F parseD ts' startUrls mp ma true fuel
        (runMain getPage dp pp F parseD ts startUrls mp ma true fuel []).log).attempts = [] ∧
    (runMain getPage dp pp F parseD ts' startUrls mp ma true fuel
        (runMain getPage dp pp F parseD ts startUrls mp ma true fuel []).log).newEntries = [] ∧
    ∀ u ∈ (runMain getPage dp pp F parseD ts startUrls mp ma true fuel []).detailUrls,
      countUrl (runMain getPage dp pp F parseD ts' startUrls mp ma true fuel
        (runMain getPage dp pp F parseD ts startUrls mp ma true fuel []).log).log u = 1 := by
  have hnd : (pyTruncate ma
      (crawl_listing_pages getPage dp pp mp startUrls fuel).detailUrls).Nodup :=
    pyTruncate_nodup ma _ (crawl_detailUrls_nodup getPage dp pp mp startUrls fuel)
  have hne : ∀ u ∈ pyTruncate ma
      (crawl_listing_pages getPage dp pp mp startUrls fuel).detailUrls, u ≠ "" :=
    fun u hu => crawl_detailUrls_ne_empty getPage dp pp mp startUrls fuel u
      (pyTruncate_subset ma _ u hu)
  refine ⟨?_, ?_⟩
  · intro log u hu
    have hms := processDetails_mem_skipped F parseD ts hp
      (pyTruncate ma (crawl_listing_pages getPage dp pp mp startUrls fuel).detailUrls)
      (existing_urls (load_jsonl log)) u hu
    refine ⟨hms.1, hms.2, ?_⟩
    show countUrl (log ++ (processDetails F parseD ts true
        (pyTruncate ma (crawl_listing_pages getPage dp pp mp startUrls fuel).detailUrls)
        (existing_urls (load_jsonl log))).1.map LogLine.entry) u = countUrl log u
    unfold countUrl
    rw [load_jsonl_append, load_jsonl_entries, List.countP_append]
    have hz : (processDetails F parseD ts true
        (pyTruncate ma (crawl_listing_pages getPage dp pp mp startUrls fuel).detailUrls)
        (existing_urls (load_jsonl log))).1.countP
          (fun e => decide (e "url" = some (Val.vStr u))) = 0 := by
      refine List.countP_eq_zero.2 (fun e he => ?_)
      simpa using hms.2 e he
    rw [hz, Nat.add_zero]
  · have hfr := processDetails_fresh F parseD ts hp
      (pyTruncate ma (crawl_listing_pages getPage dp pp mp startUrls fuel).detailUrls)
      (existing_urls (load_jsonl ([] : List LogLine))) hnd
      (fun u _ hc => absurd hc (List.not_mem_nil u)) hF hne
    have hexeq : existing_urls (load_jsonl
        ((runMain getPage dp pp F parseD ts startUrls mp ma true fuel []).log)) =
        pyTruncate ma (crawl_listing_pages getPage dp pp mp startUrls fuel).detailUrls := by
      show existing_urls (load_jsonl (([] : List LogLine) ++ (processDetails F parseD ts true
          (pyTruncate ma (crawl_listing_pages getPage dp pp mp startUrls fuel).detailUrls)
          (existing_urls (load_jsonl ([] : List LogLine)))).1.map LogLine.entry)) = _
      rw [List.nil_append, load_jsonl_entries]
      exact hfr.2.1
    have hskip := processDetails_skip_all F parseD ts'
      (pyTruncate ma (crawl_listing_pages getPage dp pp mp startUrls fuel).detailUrls)
      (existing_urls (load_jsonl
        ((runMain getPage dp pp F parseD ts startUrls mp ma true fuel []).log)))
      (fun u hu => by rw [hexeq]; exact hu)
    refine ⟨?_, ?_, ?_⟩
    · show (processDetails F parseD ts' true _ _).2 = []
      rw [hskip]
    · show (processDetails F parseD ts' true _ _).1 = []
      rw [hskip]
    · intro u hu
      show countUrl ((runMain getPage dp pp F parseD ts startUrls mp ma true fuel []).log ++
          (processDetails F parseD ts' true _ _).1.map LogLine.entry) u = 1
      rw [hskip]
      show countUrl ((runMain getPage dp pp F parseD ts startUrls mp ma true fuel []).log ++
          ([] : List Record).map LogLine.entry) u = 1
      rw [List.map_nil, List.append_nil]
      show countUrl (([] : List LogLine) ++ (processDetails F parseD ts true
          (pyTruncate ma (crawl_listing_pages getPage dp pp mp startUrls fuel).detailUrls)
          (existing_urls (load_jsonl ([] : List LogLine)))).1.map LogLine.entry) u = 1
      unfold countUrl
      rw [List.nil_append, load_jsonl_entries, hfr.2.2 u]
      exact List.count_eq_one_of_mem hnd hu

/-- Witness for C1: two resume runs over the two-detail-page listing graph;
the second run attempts no detail fetch and the log holds exactly one
entry for the first detail URL. -/
theorem resume_idempotent_witness :
    (runMain resumeGraph tlDetailPats tlPagPats constFetch urlOnlyParse "t2"
        [resumeStart] none none true 20
        (runMain resumeGraph tlDetailPats tlPagPats constFetch urlOnlyParse "t1"
          [resumeStart] none none true 20 []).log).attempts = [] ∧
    countUrl (runMain resumeGraph tlDetailPats tlPagPats constFetch urlOnlyParse "t2"
        [resumeStart] none none true 20
        (runMain resumeGraph tlDetailPats tlPagPats constFetch urlOnlyParse "t1"
          [resumeStart] none none true 20 []).log).log "https://h.com/detail/a1/x" = 1 := by
  have h := resume_idempotent resumeGraph tlDetailPats tlPagPats constFetch urlOnlyParse
    "t1" "t2" [resumeStart] none none 20 (fun _ _ => rfl) (fun u _ => ⟨"html", rfl⟩)
  exact ⟨h.2.1, h.2.2.2 _ (by decide)⟩

theorem setFromAttr_ne (r : Record) (k k' : String) (o : Option String) (h : k' ≠ k) :
    setFromAttr r k o k' = r k' := by
  unfold setFromAttr
  cases o with
  | none => rfl
  | some v =>
      show (if v ≠ "" then rset r k (Val.vStr v) else r) k' = r k'
      by_cases hv : v ≠ ""
      · rw [if_pos hv]; exact rset_ne r k k' _ h
      · rw [if_neg hv]

theorem setFromAttr_some (r : Record) (k v : String) (hv : v ≠ "") :
    setFromAttr r k (some v) k = some (Val.vStr v) := by
  unfold setFromAttr
  show (if v ≠ "" then rset r k (Val.vStr v) else r) k = some (Val.vStr v)
  rw [if_pos hv]
  exact rset_self r k _

theorem setIfAbsentOutline_ne (r : Record) (k k' : String) (o : Option String)
    (h : k' ≠ k) : setIfAbsentOutline r k o k' = r k' := by
  unfold setIfAbsentOutline
  cases hr : r k <;> cases o <;> try rfl
  rename_i c
  show (if c ≠ "" then rset r k (Val.vStr c) else r) k' = r k'
  by_cases hc : c ≠ ""
  · rw [if_pos hc]; exact rset_ne r k k' _ h
  · rw [if_neg hc]

theorem setIfAbsentOutline_set (r : Record) (k c : String)
    (hr : r k = none) (hc : c ≠ "") :
    setIfAbsentOutline r k (some c) k = some (Val.vStr c) := by
  unfold setIfAbsentOutline
  rw [hr]
  show (if c ≠ "" then rset r k (Val.vStr c) else r) k = some (Val.vStr c)
  rw [if_pos hc]
  exact rset_self r k _

theorem latestBidWrite_ne (bh : List BidRow) (r : Record) (k : String)
    (h : k ≠ "latest_bid") : latestBidWrite bh r k = r k := by
  unfold latestBidWrite
  cases bh with
  | nil => rfl
  | cons b _ => exact rset_ne r _ k _ h

theorem pricingBlock_ne (p : List (String × String)) (r : Record) (k : String)
    (h1 : k ≠ "lot_id") (h2 : k ≠ "items_count") (h3 : k ≠ "bid_count")
    (h4 : k ≠ "shipping_method") (h5 : k ≠ "subtotal_cents")
    (h6 : k ≠ "default_shipping_cents") :
    pricingBlock p r k = r k := by
  simp only [pricingBlock]
  by_cases hp : p.isEmpty
  · rw [if_pos hp]
  · rw [if_neg hp, setFromAttr_ne _ _ _ _ h6, setFromAttr_ne _ _ _ _ h5,
      setFromAttr_ne _ _ _ _ h4, setFromAttr_ne _ _ _ _ h3,
      setFromAttr_ne _ _ _ _ h2, setFromAttr_ne _ _ _ _ h1]

theorem lookup_none_of_not_mem (l : List (String × String)) (k : String)
    (h : k ∉ l.map Prod.fst) : l.lookup k = none := by
  induction l with
  | nil => rfl
  | cons kv tl ih =>
      obtain ⟨k0, v0⟩ := kv
      simp only [List.map_cons, List.mem_cons, not_or] at h
      have hb : (k == k0) = false := beq_eq_false_iff_ne.2 h.1
      simp [List.lookup, hb, ih h.2]

theorem lookup_isSome_of_mem (l : List (String × String)) (k : String)
    (h : k ∈ l.map Prod.fst) : (l.lookup k).isSome := by
  induction l with
  | nil => simp at h
  | cons kv tl ih =>
      obtain ⟨k0, v0⟩ := kv
      simp only [List.map_cons, List.mem_cons] at h
      by_cases hb : (k == k0) = true
      · simp [List.lookup, hb]
      · rw [Bool.not_eq_true] at hb
        simp only [List.lookup, hb]
        rcases h with rfl | h'
        · simp at hb
        · exact ih h'

theorem lookup_mem_values (l : List (String × String)) (k : String) (v : String)
    (h : l.lookup k = some v) : v ∈ l.map Prod.snd := by
  induction l with
  | nil => cases h
  | cons kv tl ih =>
      obtain ⟨k0, v0⟩ := kv
      by_cases hb : (k == k0) = true
      · simp only [List.lookup, hb] at h
        obtain rfl := Option.some.inj h
        exact List.mem_cons_self _ _
      · rw [Bool.not_eq_true] at hb
        simp only [List.lookup, hb] at h
        exact List.mem_cons_of_mem _ (ih h)

theorem npFold_key_values (ps : List KvPair) :
    ∀ acc, (∀ kv ∈ acc, kv.1 ∈ LABEL_MAP.map Prod.snd) →
      ∀ kv ∈ ps.foldl npStep acc, kv.1 ∈ LABEL_MAP.map Prod.snd := by
  induction ps with
  | nil => intro acc h; exact h
  | cons p rest ih =>
      intro acc h
      rw [List.foldl_cons]
      refine ih (npStep acc p) ?_
      intro kv hkv
      unfold npStep at hkv
      cases hl : LABEL_MAP.lookup (normalize_label p.label) with
      | none => rw [hl] at hkv; exact h kv hkv
      | some key =>
          rw [hl] at hkv
          dsimp only at hkv
          by_cases hs : ((acc.lookup key).isSome : Bool)
          · rw [if_pos hs] at hkv; exact h kv hkv
          · rw [if_neg hs] at hkv
            rcases List.mem_append.1 hkv with hkv' | hkv'
            · exact h kv hkv'
            · obtain rfl := List.mem_singleton.1 hkv'
              exact lookup_mem_values _ _ _ hl

theorem np_key_values (ps : List KvPair) :
    ∀ kv ∈ normalize_pairs ps, kv.1 ∈ LABEL_MAP.map Prod.snd :=
  npFold_key_values ps [] (by simp)

theorem npFold_keys_nodup (ps : List KvPair) :
    ∀ acc : List (String × String), (acc.map Prod.fst).Nodup →
      ((ps.foldl npStep acc).map Prod.fst).Nodup := by
  induction ps with
  | nil => intro acc h; exact h
  | cons p rest ih =>
      intro acc h
      rw [List.foldl_cons]
      refine ih (npStep acc p) ?_
      unfold npStep
      cases hl : LABEL_MAP.lookup (normalize_label p.label) with
      | none => exact h
      | some key =>
          dsimp only
          by_cases hs : ((acc.lookup key).isSome : Bool)
          · rw [if_pos hs]; exact h
          · rw [if_neg hs]
            rw [List.map_append]
            rw [List.nodup_append]
            refine ⟨h, List.nodup_singleton _, ?_⟩
            intro x hx hx'
            simp only [List.map_cons, List.map_nil, List.mem_singleton] at hx'
            subst hx'
            exact hs (lookup_isSome_of_mem acc x hx)

theorem applyNormalized_not_mem (l : List (String × String)) (r : Record) (k : String)
    (h : ∀ kv ∈ l, kv.1 ≠ k) : applyNormalized r l k = r k := by
  induction l generalizing r with
  | nil => rfl
  | cons kv tl ih =>
      show applyNormalized (rset r kv.1 (Val.vStr kv.2)) tl k = r k
      rw [ih _ (fun kv' h' => h kv' (List.mem_cons_of_mem _ h'))]
      exact rset_ne r _ k _ (Ne.symm (h kv (List.mem_cons_self _ _)))

theorem applyNormalized_lookup (l : List (String × String)) (r : Record) (k : String)
    (hnd : (l.map Prod.fst).Nodup) :
    applyNormalized r l k =
      (match l.lookup k with
       | some v => some (Val.vStr v)
       | none => r k) := by
  induction l generalizing r with
  | nil => rfl
  | cons kv tl ih =>
      obtain ⟨k0, v0⟩ := kv
      simp only [List.map_cons, List.nodup_cons] at hnd
      show applyNormalized (rset r k0 (Val.vStr v0)) tl k = _
      rw [ih _ hnd.2]
      by_cases hk : (k == k0) = true
      · have hkk : k = k0 := eq_of_beq hk
        subst hkk
        rw [lookup_none_of_not_mem tl k hnd.1]
        show (rset r k (Val.vStr v0)) k = _
        rw [rset_self]
        simp [List.lookup]
      · rw [Bool.not_eq_true] at hk
        cases htl : tl.lookup k with
        | some v => simp [List.lookup, hk, htl]
        | none =>
            simp only [List.lookup, hk, htl]
            exact rset_ne r k0 k _ (fun hc => by subst hc; simp at hk)

theorem ldStep_fst_stable (p : LdPayload) (t : String) (d : Option String)
    (hs : strStartsWith (pyLower t) "techliquidators" = false) :
    (ldStep (some t, d) p).1 = some t := by
  simp [ldStep, strTruthy, hs]

theorem ldFold_fst_stable (ps : List LdPayload) (t : String)
    (hs : strStartsWith (pyLower t) "techliquidators" = false) :
    ∀ d, (ps.foldl ldStep (some t, d)).1 = some t := by
  induction ps with
  | nil => intro d; rfl
  | cons p rest ih =>
      intro d
      rw [List.foldl_cons]
      have h2 : ldStep (some t, d) p = (some t, (ldStep (some t, d) p).2) :=
        Prod.ext (ldStep_fst_stable p t d hs) rfl
      rw [h2]
      exact ih _

theorem currencyValueStep_ok (src dst : String) (r r' : Record)
    (h : currencyValueStep src dst r = Except.ok r') :
    ∃ v, parse_currency (pyStr (pyGetD r src (Val.vStr ""))) = Except.ok v ∧
      r' = rset r dst (optDecVal v) := by
  unfold currencyValueStep at h
  cases hpc : parse_currency (pyStr (pyGetD r src (Val.vStr ""))) with
  | error e => rw [hpc] at h; cases h
  | ok v => rw [hpc] at h; exact ⟨v, rfl, (Except.ok.inj h).symm⟩

theorem intValueStep_ne (src dst : String) (r : Record) (k : String) (h : k ≠ dst) :
    intValueStep src dst r k = r k :=
  rset_ne r dst k _ h

theorem weightStep_ne (r : Record) (k : String) (h : k ≠ "weight_lbs") :
    weightStep r k = r k := by
  unfold weightStep
  split
  · cases parse_weight_lbs (pyStr ((r "weight").getD Val.vNone)) with
    | some w => exact rset_ne r _ k _ h
    | none => rfl
  · rfl

theorem totalItemsStep_ne (r : Record) (k : String) (h : k ≠ "total_items_value") :
    totalItemsStep r k = r k := by
  unfold totalItemsStep
  split
  · cases parse_int (pyStr ((r "total_items").getD Val.vNone)) with
    | some w => exact rset_ne r _ k _ h
    | none => rfl
  · rfl

theorem centsStep_ne (src dst : String) (r : Record) (k : String) (h : k ≠ dst) :
    centsStep src dst r k = r k := by
  unfold centsStep
  split
  · cases pyFloat (pyStr ((r src).getD Val.vNone)) with
    | ok q => exact rset_ne r _ k _ h
    | error e => rfl
  · rfl

theorem itemsCountStep_ne (r : Record) (k : String) (h : k ≠ "items_count_value") :
    itemsCountStep r k = r k := by
  unfold itemsCountStep
  split
  · cases parse_int (pyStr ((r "items_count").getD Val.vNone)) with
    | some w => exact rset_ne r _ k _ h
    | none => rfl
  · rfl

theorem origRetailStep_preserve (lt : Option String) (r r' : Record)
    (h : origRetailStep lt r = Except.ok r') (k : String)
    (h1 : k ≠ "orig_retail") (h2 : k ≠ "orig_retail_value")
    (h3 : k ≠ "msrp_value") (h4 : k ≠ "retail_value_value") :
    r' k = r k := by
  unfold origRetailStep at h
  cases lt with
  | none => obtain rfl := Except.ok.inj h; rfl
  | some t =>
      dsimp only at h
      by_cases hcond : (decide (t ≠ "") && strContains (pyLower t) "orig. retail") = true
      · rw [if_pos hcond] at h
        cases hpc : parse_currency t with
        | error e => rw [hpc] at h; cases h
        | ok v =>
            rw [hpc] at h
            dsimp only at h
            obtain rfl := Except.ok.inj h
            split <;> split <;>
              simp only [rset_ne _ _ _ _ h4, rset_ne _ _ _ _ h3,
                rset_ne _ _ _ _ h2, rset_ne _ _ _ _ h1]
      · rw [if_neg hcond] at h
        obtain rfl := Except.ok.inj h
        rfl

theorem bidFallbackStep_preserve (r r' : Record)
    (h : bidFallbackStep r = Except.ok r') (k : String)
    (hk : k ≠ "current_bid_value") : r' k = r k := by
  unfold bidFallbackStep at h
  by_cases htr : truthyAt r "bid_history" = true
  · rw [if_pos htr] at h
    dsimp only at h
    generalize (match r "bid_history" with
      | some (Val.vRows rows) => rows
      | _ => ([] : List BidRow)) = rows at h
    cases hpc : pcBids rows with
    | error e => rw [hpc] at h; cases h
    | ok parsed =>
        rw [hpc] at h
        dsimp only at h
        cases hfm : parsed.filterMap id with
        | nil => rw [hfm] at h; obtain rfl := Except.ok.inj h; rfl
        | cons v vs =>
            rw [hfm] at h
            dsimp only at h
            obtain rfl := Except.ok.inj h
            split
            · exact rset_ne r _ k _ hk
            · rfl
  · rw [if_neg htr] at h
    obtain rfl := Except.ok.inj h
    rfl

theorem bidFallbackStep_keep (r r' : Record)
    (h : bidFallbackStep r = Except.ok r')
    (htr : truthyAt r "current_bid_value" = true) : r' = r := by
  unfold bidFallbackStep at h
  by_cases hbt : truthyAt r "bid_history" = true
  · rw [if_pos hbt] at h
    dsimp only at h
    generalize (match r "bid_history" with
      | some (Val.vRows rows) => rows
      | _ => ([] : List BidRow)) = rows at h
    cases hpc : pcBids rows with
    | error e => rw [hpc] at h; cases h
    | ok parsed =>
        rw [hpc] at h
        dsimp only at h
        cases hfm : parsed.filterMap id with
        | nil => rw [hfm] at h; exact (Except.ok.inj h).symm
        | cons v vs =>
            rw [hfm] at h
            dsimp only at h
            rw [htr] at h
            simp only [Bool.not_true, Bool.false_eq_true, if_false] at h
            exact (Except.ok.inj h).symm
  · rw [if_neg hbt] at h
    exact (Except.ok.inj h).symm

theorem bidFallbackStep_set (r : Record) (rows : List BidRow)
    (parsed : List (Option Dec)) (q : Dec) (rest' : List Dec)
    (hbh : r "bid_history" = some (Val.vRows rows))
    (hne : rows ≠ [])
    (hpc : pcBids rows = Except.ok parsed)
    (hfm : parsed.filterMap id = q :: rest')
    (hcb : truthyAt r "current_bid_value" = false) :
    bidFallbackStep r = Except.ok (rset r "current_bid_value" (Val.vDec q)) := by
  unfold bidFallbackStep
  have htr : truthyAt r "bid_history" = true := by
    simp [truthyAt, hbh, pyTruthy, hne]
  rw [if_pos htr, hbh]
  dsimp only
  rw [hpc]
  dsimp only
  rw [hfm]
  dsimp only
  rw [hcb]
  simp

theorem ptdValues_preserve (lt : Option String) (r r' : Record)
    (h : ptdValues lt r = Except.ok r') (k : String) (hk : k ∉ VALUE_KEYS) :
    r' k = r k := by
  simp only [VALUE_KEYS, List.mem_cons, List.not_mem_nil, or_false, not_or] at hk
  obtain ⟨n1, n2, n3, n4, n5, n6, n7, n8, n9, n10, n11, n12, n13⟩ := hk
  unfold ptdValues at h
  cases hs1 : currencyValueStep "msrp" "msrp_value" r with
  | error e => rw [hs1] at h; cases h
  | ok r1 =>
  rw [hs1] at h
  dsimp only at h
  cases hs2 : currencyValueStep "retail_value" "retail_value_value" r1 with
  | error e => rw [hs2] at h; cases h
  | ok r2 =>
  rw [hs2] at h
  dsimp only at h
  cases hs3 : currencyValueStep "current_bid" "current_bid_value" r2 with
  | error e => rw [hs3] at h; cases h
  | ok r3 =>
  rw [hs3] at h
  dsimp only at h
  cases hs4 : currencyValueStep "buyer_premium" "buyer_premium_value" r3 with
  | error e => rw [hs4] at h; cases h
  | ok r4 =>
  rw [hs4] at h
  dsimp only at h
  cases hs7 : origRetailStep lt
      (intValueStep "pallet_count" "pallet_count_value"
        (intValueStep "quantity" "quantity_value" r4)) with
  | error e => rw [hs7] at h; cases h
  | ok r7 =>
  rw [hs7] at h
  dsimp only at h
  obtain ⟨v1, _, rfl⟩ := currencyValueStep_ok _ _ _ _ hs1
  obtain ⟨v2, _, rfl⟩ := currencyValueStep_ok _ _ _ _ hs2
  obtain ⟨v3, _, rfl⟩ := currencyValueStep_ok _ _ _ _ hs3
  obtain ⟨v4, _, rfl⟩ := currencyValueStep_ok _ _ _ _ hs4
  have hr12 := bidFallbackStep_preserve _ _ h k n3
  rw [hr12, itemsCountStep_ne _ _ n13,
    centsStep_ne _ _ _ _ n12, centsStep_ne _ _ _ _ n11,
    totalItemsStep_ne _ _ n10, weightStep_ne _ _ n9,
    origRetailStep_preserve _ _ _ hs7 k n7 n8 n1 n2,
    intValueStep_ne _ _ _ _ n6, intValueStep_ne _ _ _ _ n5,
    rset_ne _ _ _ _ n4, rset_ne _ _ _ _ n3, rset_ne _ _ _ _ n2,
    rset_ne _ _ _ _ n1]

theorem np_keys_ne (ps : List KvPair) (k : String)
    (hk : k ∉ LABEL_MAP.map Prod.snd) :
    ∀ kv ∈ normalize_pairs ps, kv.1 ≠ k :=
  fun kv hkv hc => hk (hc ▸ np_key_values ps kv hkv)

theorem np_keys_nodup (ps : List KvPair) :
    ((normalize_pairs ps).map Prod.fst).Nodup :=
  npFold_keys_nodup ps [] (by simp)

theorem pricingBlock_lot_id (p : List (String × String)) (r : Record) (v : String)
    (hp : p.isEmpty = false) (hl : p.lookup "listing-name" = some v) (hv : v ≠ "") :
    pricingBlock p r "lot_id" = some (Val.vStr v) := by
  simp only [pricingBlock]
  rw [if_neg (by simp [hp]), setFromAttr_ne _ _ _ _ (by decide),
    setFromAttr_ne _ _ _ _ (by decide), setFromAttr_ne _ _ _ _ (by decide),
    setFromAttr_ne _ _ _ _ (by decide), setFromAttr_ne _ _ _ _ (by decide), hl]
  exact setFromAttr_some _ _ _ hv

theorem pricingBlock_items_count (p : List (String × String)) (r : Record) (v : String)
    (hp : p.isEmpty = false) (hl : p.lookup "items-count" = some v) (hv : v ≠ "") :
    pricingBlock p r "items_count" = some (Val.vStr v) := by
  simp only [pricingBlock]
  rw [if_neg (by simp [hp]), setFromAttr_ne _ _ _ _ (by decide),
    setFromAttr_ne _ _ _ _ (by decide), setFromAttr_ne _ _ _ _ (by decide),
    setFromAttr_ne _ _ _ _ (by decide), hl]
  exact setFromAttr_some _ _ _ hv

theorem pricingBlock_bid_count (p : List (String × String)) (r : Record) (v : String)
    (hp : p.isEmpty = false) (hl : p.lookup "bid-count" = some v) (hv : v ≠ "") :
    pricingBlock p r "bid_count" = some (Val.vStr v) := by
  simp only [pricingBlock]
  rw [if_neg (by simp [hp]), setFromAttr_ne _ _ _ _ (by decide),
    setFromAttr_ne _ _ _ _ (by decide), setFromAttr_ne _ _ _ _ (by decide), hl]
  exact setFromAttr_some _ _ _ hv

theorem pricingBlock_shipping_method (p : List (String × String)) (r : Record) (v : String)
    (hp : p.isEmpty = false) (hl : p.lookup "shipping-method" = some v) (hv : v ≠ "") :
    pricingBlock p r "shipping_method" = some (Val.vStr v) := by
  simp only [pricingBlock]
  rw [if_neg (by simp [hp]), setFromAttr_ne _ _ _ _ (by decide),
    setFromAttr_ne _ _ _ _ (by decide), hl]
  exact setFromAttr_some _ _ _ hv

theorem pricingBlock_subtotal_cents (p : List (String × String)) (r : Record) (v : String)
    (hp : p.isEmpty = false) (hl : p.lookup "subtotal-cents" = some v) (hv : v ≠ "") :
    pricingBlock p r "subtotal_cents" = some (Val.vStr v) := by
  simp only [pricingBlock]
  rw [if_neg (by simp [hp]), setFromAttr_ne _ _ _ _ (by decide), hl]
  exact setFromAttr_some _ _ _ hv

theorem pricingBlock_default_shipping_cents (p : List (String × String)) (r : Record)
    (v : String) (hp : p.isEmpty = false)
    (hl : p.lookup "default-shipping-cents" = some v) (hv : v ≠ "") :
    pricingBlock p r "default_shipping_cents" = some (Val.vStr v) := by
  simp only [pricingBlock]
  rw [if_neg (by simp [hp]), hl]
  exact setFromAttr_some _ _ _ hv

theorem ptdBase_lot_id (inp : DetailInputs) (url : String) (v : String)
    (hp : inp.pricing.isEmpty = false)
    (hl : inp.pricing.lookup "listing-name" = some v) (hv : v ≠ "") :
    ptdBase inp url "lot_id" = some (Val.vStr v) := by
  simp only [ptdBase]
  rw [latestBidWrite_ne _ _ _ (by decide)]
  exact pricingBlock_lot_id _ _ _ hp hl hv

theorem ptdBase_items_count (inp : DetailInputs) (url : String) (v : String)
    (hp : inp.pricing.isEmpty = false)
    (hl : inp.pricing.lookup "items-count" = some v) (hv : v ≠ "") :
    ptdBase inp url "items_count" = some (Val.vStr v) := by
  simp only [ptdBase]
  rw [latestBidWrite_ne _ _ _ (by decide)]
  exact pricingBlock_items_count _ _ _ hp hl hv

theorem ptdBase_bid_count (inp : DetailInputs) (url : String) (v : String)
    (hp : inp.pricing.isEmpty = false)
    (hl : inp.pricing.lookup "bid-count" = some v) (hv : v ≠ "") :
    ptdBase inp url "bid_count" = some (Val.vStr v) := by
  simp only [ptdBase]
  rw [latestBidWrite_ne _ _ _ (by decide)]
  exact pricingBlock_bid_count _ _ _ hp hl hv

theorem ptdBase_shipping_method (inp : DetailInputs) (url : String) (v : String)
    (hp : inp.pricing.isEmpty = false)
    (hl : inp.pricing.lookup "shipping-method" = some v) (hv : v ≠ "") :
    ptdBase inp url "shipping_method" = some (Val.vStr v) := by
  simp only [ptdBase]
  rw [latestBidWrite_ne _ _ _ (by decide)]
  exact pricingBlock_shipping_method _ _ _ hp hl hv

theorem ptdBase_subtotal_cents (inp : DetailInputs) (url : String) (v : String)
    (hp : inp.pricing.isEmpty = false)
    (hl : inp.pricing.lookup "subtotal-cents" = some v) (hv : v ≠ "") :
    ptdBase inp url "subtotal_cents" = some (Val.vStr v) := by
  simp only [ptdBase]
  rw [latestBidWrite_ne _ _ _ (by decide)]
  exact pricingBlock_subtotal_cents _ _ _ hp hl hv

theorem ptdBase_default_shipping_cents (inp : DetailInputs) (url : String) (v : String)
    (hp : inp.pricing.isEmpty = false)
    (hl : inp.pricing.lookup "default-shipping-cents" = some v) (hv : v ≠ "") :
    ptdBase inp url "default_shipping_cents" = some (Val.vStr v) := by
  simp only [ptdBase]
  rw [latestBidWrite_ne _ _ _ (by decide)]
  exact pricingBlock_default_shipping_cents _ _ _ hp hl hv

theorem ptdBase_manifest_url (inp : DetailInputs) (url mh : String)
    (hm : inp.manifestHref = some mh) :
    ptdBase inp url "manifest_url" = some (Val.vStr (pyUrljoin url mh)) := by
  simp only [ptdBase]
  rw [latestBidWrite_ne _ _ _ (by decide),
    pricingBlock_ne _ _ _ (by decide) (by decide) (by decide) (by decide)
      (by decide) (by decide),
    setFromAttr_ne _ _ _ _ (by decide),
    setIfAbsentOutline_ne _ _ _ _ (by decide),
    setIfAbsentOutline_ne _ _ _ _ (by decide),
    applyNormalized_not_mem _ _ _ (np_keys_ne _ _ (by decide)),
    rset_ne _ _ _ _ (by decide), rset_ne _ _ _ _ (by decide),
    rset_ne _ _ _ _ (by decide), rset_ne _ _ _ _ (by decide),
    rset_self, hm]
  rfl

theorem ptdBase_title (inp : DetailInputs) (url t : String)
    (hlt : inp.listingTitle = some t) (htne : t ≠ "")
    (hs : strStartsWith (pyLower t) "techliquidators" = false) :
    ptdBase inp url "title" = some (Val.vStr t) := by
  simp only [ptdBase]
  rw [latestBidWrite_ne _ _ _ (by decide),
    pricingBlock_ne _ _ _ (by decide) (by decide) (by decide) (by decide)
      (by decide) (by decide),
    setFromAttr_ne _ _ _ _ (by decide),
    setIfAbsentOutline_ne _ _ _ _ (by decide),
    setIfAbsentOutline_ne _ _ _ _ (by decide),
    applyNormalized_not_mem _ _ _ (np_keys_ne _ _ (by decide)),
    rset_ne _ _ _ _ (by decide), rset_ne _ _ _ _ (by decide),
    rset_ne _ _ _ _ (by decide), rset_ne _ _ _ _ (by decide),
    rset_ne _ _ _ _ (by decide), rset_ne _ _ _ _ (by decide),
    rset_ne _ _ _ _ (by decide), rset_ne _ _ _ _ (by decide),
    rset_ne _ _ _ _ (by decide), rset_self, hlt]
  have h0 : pyOrStr (some t) (pyOrStr inp.ogTitle inp.h1) = some t := by
    simp [pyOrStr, strTruthy, htne]
  rw [h0, ldFold_fst_stable inp.ldJson t hs inp.ogDescription]
  rfl

theorem ptdBase_bid_history (inp : DetailInputs) (url : String) :
    ptdBase inp url "bid_history" = some (Val.vRows inp.bidHistory) := by
  simp only [ptdBase]
  rw [latestBidWrite_ne _ _ _ (by decide),
    pricingBlock_ne _ _ _ (by decide) (by decide) (by decide) (by decide)
      (by decide) (by decide),
    setFromAttr_ne _ _ _ _ (by decide),
    setIfAbsentOutline_ne _ _ _ _ (by decide),
    setIfAbsentOutline_ne _ _ _ _ (by decide),
    applyNormalized_not_mem _ _ _ (np_keys_ne _ _ (by decide)),
    rset_ne _ _ _ _ (by decide), rset_self]

theorem ptdBase_condition (inp : DetailInputs) (url c : String)
    (hnm : (normalize_pairs (filter_pairs inp.pairs)).lookup "condition" = none)
    (ho : inp.outline.lookup "condition" = some c) (hc : c ≠ "") :
    ptdBase inp url "condition" = some (Val.vStr c) := by
  simp only [ptdBase]
  rw [latestBidWrite_ne _ _ _ (by decide),
    pricingBlock_ne _ _ _ (by decide) (by decide) (by decide) (by decide)
      (by decide) (by decide),
    setFromAttr_ne _ _ _ _ (by decide),
    setIfAbsentOutline_ne _ _ _ _ (by decide), ho]
  refine setIfAbsentOutline_set _ _ _ ?_ hc
  rw [applyNormalized_lookup _ _ _ (np_keys_nodup _), hnm]
  dsimp only
  rw [rset_ne _ _ _ _ (by decide), rset_ne _ _ _ _ (by decide),
    rset_ne _ _ _ _ (by decide), rset_ne _ _ _ _ (by decide),
    rset_ne _ _ _ _ (by decide), rset_ne _ _ _ _ (by decide),
    rset_ne _ _ _ _ (by decide), rset_ne _ _ _ _ (by decide),
    rset_ne _ _ _ _ (by decide), rset_ne _ _ _ _ (by decide),
    rset_ne _ _ _ _ (by decide), rset_ne _ _ _ _ (by decide),
    rset_ne _ _ _ _ (by decide)]

theorem ptdBase_warehouse (inp : DetailInputs) (url w : String)
    (hnm : (normalize_pairs (filter_pairs inp.pairs)).lookup "warehouse" = none)
    (ho : inp.outline.lookup "warehouse" = some w) (hw : w ≠ "") :
    ptdBase inp url "warehouse" = some (Val.vStr w) := by
  simp only [ptdBase]
  rw [latestBidWrite_ne _ _ _ (by decide),
    pricingBlock_ne _ _ _ (by decide) (by decide) (by decide) (by decide)
      (by decide) (by decide),
    setFromAttr_ne _ _ _ _ (by decide), ho]
  refine setIfAbsentOutline_set _ _ _ ?_ hw
  rw [setIfAbsentOutline_ne _ _ _ _ (by decide),
    applyNormalized_lookup _ _ _ (np_keys_nodup _), hnm]
  dsimp only
  rw [rset_ne _ _ _ _ (by decide), rset_ne _ _ _ _ (by decide),
    rset_ne _ _ _ _ (by decide), rset_ne _ _ _ _ (by decide),
    rset_ne _ _ _ _ (by decide), rset_ne _ _ _ _ (by decide),
    rset_ne _ _ _ _ (by decide), rset_ne _ _ _ _ (by decide),
    rset_ne _ _ _ _ (by decide), rset_ne _ _ _ _ (by decide),
    rset_ne _ _ _ _ (by decide), rset_ne _ _ _ _ (by decide),
    rset_ne _ _ _ _ (by decide)]

theorem ptdValues_cbv (lt : Option String) (B r : Record)
    (h : ptdValues lt B = Except.ok r) :
    ∃ (v3 : Option Dec) (r12 : Record),
      parse_currency (pyStr (pyGetD B "current_bid" (Val.vStr ""))) = Except.ok v3 ∧
      bidFallbackStep r12 = Except.ok r ∧
      r12 "current_bid_value" = some (optDecVal v3) ∧
      r12 "bid_history" = B "bid_history" := by
  unfold ptdValues at h
  cases hs1 : currencyValueStep "msrp" "msrp_value" B with
  | error e => rw [hs1] at h; cases h
  | ok r1 =>
  rw [hs1] at h
  dsimp only at h
  cases hs2 : currencyValueStep "retail_value" "retail_value_value" r1 with
  | error e => rw [hs2] at h; cases h
  | ok r2 =>
  rw [hs2] at h
  dsimp only at h
  cases hs3 : currencyValueStep "current_bid" "current_bid_value" r2 with
  | error e => rw [hs3] at h; cases h
  | ok r3 =>
  rw [hs3] at h
  dsimp only at h
  cases hs4 : currencyValueStep "buyer_premium" "buyer_premium_value" r3 with
  | error e => rw [hs4] at h; cases h
  | ok r4 =>
  rw [hs4] at h
  dsimp only at h
  cases hs7 : origRetailStep lt
      (intValueStep "pallet_count" "pallet_count_value"
        (intValueStep "quantity" "quantity_value" r4)) with
  | error e => rw [hs7] at h; cases h
  | ok r7 =>
  rw [hs7] at h
  dsimp only at h
  obtain ⟨v1, hp1, rfl⟩ := currencyValueStep_ok _ _ _ _ hs1
  obtain ⟨v2, hp2, rfl⟩ := currencyValueStep_ok _ _ _ _ hs2
  obtain ⟨v3, hp3, rfl⟩ := currencyValueStep_ok _ _ _ _ hs3
  obtain ⟨v4, hp4, rfl⟩ := currencyValueStep_ok _ _ _ _ hs4
  have heq : pyGetD (rset (rset B "msrp_value" (optDecVal v1)) "retail_value_value"
      (optDecVal v2)) "current_bid" (Val.vStr "") = pyGetD B "current_bid" (Val.vStr "") := by
    unfold pyGetD
    rw [rset_ne _ _ _ _ (by decide), rset_ne _ _ _ _ (by decide)]
  rw [heq] at hp3
  refine ⟨v3, _, hp3, h, ?_, ?_⟩
  · rw [itemsCountStep_ne _ _ (by decide), centsStep_ne _ _ _ _ (by decide),
      centsStep_ne _ _ _ _ (by decide), totalItemsStep_ne _ _ (by decide),
      weightStep_ne _ _ (by decide),
      origRetailStep_preserve _ _ _ hs7 _ (by decide) (by decide) (by decide) (by decide),
      intValueStep_ne _ _ _ _ (by decide), intValueStep_ne _ _ _ _ (by decide),
      rset_ne _ _ _ _ (by decide)]
    exact rset_self _ _ _
  · rw [itemsCountStep_ne _ _ (by decide), centsStep_ne _ _ _ _ (by decide),
      centsStep_ne _ _ _ _ (by decide), totalItemsStep_ne _ _ (by decide),
      weightStep_ne _ _ (by decide),
      origRetailStep_preserve _ _ _ hs7 _ (by decide) (by decide) (by decide) (by decide),
      intValueStep_ne _ _ _ _ (by decide), intValueStep_ne _ _ _ _ (by decide),
      rset_ne _ _ _ _ (by decide), rset_ne _ _ _ _ (by decide),
      rset_ne _ _ _ _ (by decide), rset_ne _ _ _ _ (by decide)]

/-- C2 counterexample: a tier-1 title read from the edit-listing-title
attribute ("TechLiquidators Lot") is overwritten by the tier-3
structured-data name "Better Name", refuting the claim that a tier-1 value
is never overwritten by a tier-3 value. -/
theorem tier1_title_overwritten_by_ld_json :
    ldTitleInputs.listingTitle = some "TechLiquidators Lot" ∧
    ldTitleInputs.ldJson = [⟨some "Better Name", none⟩] ∧
    (match parse_techliquidators_detail ldTitleInputs "u" with
     | Except.ok r => r "title"
     | Except.error _ => none) = some (Val.vStr "Better Name") :=
  ⟨by decide, by decide, by decide⟩

/-- C2 amended: every tier-1 structured value except the title survives to
the returned record untouched by tier-2 pairs or tier-3 metadata — the six
pricing-box attributes, the manifest link, and the outline condition and
warehouse (the latter two when no tier-2 pair claimed the field, since the
outline only fills absent fields); the title from the edit-listing-title
attribute survives unless it starts (case-folded) with "techliquidators",
in which case a structured-data name replaces it. -/
theorem tier1_fields_not_overwritten (inp : DetailInputs) (url : String) (r : Record)
    (h : parse_techliquidators_detail inp url = Except.ok r) :
    (∀ v, inp.pricing.isEmpty = false → inp.pricing.lookup "listing-name" = some v →
        v ≠ "" → r "lot_id" = some (Val.vStr v)) ∧
    (∀ v, inp.pricing.isEmpty = false → inp.pricing.lookup "items-count" = some v →
        v ≠ "" → r "items_count" = some (Val.vStr v)) ∧
    (∀ v, inp.pricing.isEmpty = false → inp.pricing.lookup "bid-count" = some v →
        v ≠ "" → r "bid_count" = some (Val.vStr v)) ∧
    (∀ v, inp.pricing.isEmpty = false → inp.pricing.lookup "shipping-method" = some v →
        v ≠ "" → r "shipping_method" = some (Val.vStr v)) ∧
    (∀ v, inp.pricing.isEmpty = false → inp.pricing.lookup "subtotal-cents" = some v →
        v ≠ "" → r "subtotal_cents" = some (Val.vStr v)) ∧
    (∀ v, inp.pricing.isEmpty = false →
        inp.pricing.lookup "default-shipping-cents" = some v →
        v ≠ "" → r "default_shipping_cents" = some (Val.vStr v)) ∧
    (∀ mh, inp.manifestHref = some mh →
        r "manifest_url" = some (Val.vStr (pyUrljoin url mh))) ∧
    (∀ c, (normalize_pairs (filter_pairs inp.pairs)).lookup "condition" = none →
        inp.outline.lookup "condition" = some c → c ≠ "" →
        r "condition" = some (Val.vStr c)) ∧
    (∀ w, (normalize_pairs (filter_pairs inp.pairs)).lookup "warehouse" = none →
        inp.outline.lookup "warehouse" = some w → w ≠ "" →
        r "warehouse" = some (Val.vStr w)) ∧
    (∀ t, inp.listingTitle = some t → t ≠ "" →
        strStartsWith (pyLower t) "techliquidators" = false →
        r "title" = some (Val.vStr t)) := by
  unfold parse_techliquidators_detail at h
  refine ⟨?_, ?_, ?_, ?_, ?_, ?_, ?_, ?_, ?_, ?_⟩
  · intro v hp hl hv
    rw [ptdValues_preserve _ _ _ h _ (by decide)]
    exact ptdBase_lot_id inp url v hp hl hv
  · intro v hp hl hv
    rw [ptdValues_preserve _ _ _ h _ (by decide)]
    exact ptdBase_items_count inp url v hp hl hv
  · intro v hp hl hv
    rw [ptdValues_preserve _ _ _ h _ (by decide)]
    exact ptdBase_bid_count inp url v hp hl hv
  · intro v hp hl hv
    rw [ptdValues_preserve _ _ _ h _ (by decide)]
    exact ptdBase_shipping_method inp url v hp hl hv
  · intro v hp hl hv
    rw [ptdValues_preserve _ _ _ h _ (by decide)]
    exact ptdBase_subtotal_cents inp url v hp hl hv
  · intro v hp hl hv
    rw [ptdValues_preserve _ _ _ h _ (by decide)]
    exact ptdBase_default_shipping_cents inp url v hp hl hv
  · intro mh hm
    rw [ptdValues_preserve _ _ _ h _ (by decide)]
    exact ptdBase_manifest_url inp url mh hm
  · intro c hnm ho hc
    rw [ptdValues_preserve _ _ _ h _ (by decide)]
    exact ptdBase_condition inp url c hnm ho hc
  · intro w hnm ho hw
    rw [ptdValues_preserve _ _ _ h _ (by decide)]
    exact ptdBase_warehouse inp url w hnm ho hw
  · intro t hlt htne hs
    rw [ptdValues_preserve _ _ _ h _ (by decide)]
    exact ptdBase_title inp url t hlt htne hs

/-- Witness for C2 amended: on the page carrying every tier-1 source and a
competing tier-2 lot-id pair, the returned record keeps every tier-1
value. -/
theorem tier1_fields_not_overwritten_witness :
    ∃ r, parse_techliquidators_detail richDetailInputs "https://a.com/detail/Z9/p" =
        Except.ok r ∧
      r "lot_id" = some (Val.vStr "BB123") ∧
      r "subtotal_cents" = some (Val.vStr "12345") ∧
      r "manifest_url" = some (Val.vStr "https://a.com/m.xlsx") ∧
      r "condition" = some (Val.vStr "Salvage") ∧
      r "warehouse" = some (Val.vStr "KY-1") ∧
      r "title" = some (Val.vStr "Nice Pallet") := by
  cases hr : parse_techliquidators_detail richDetailInputs "https://a.com/detail/Z9/p" with
  | error e =>
      have hok : (parse_techliquidators_detail richDetailInputs
          "https://a.com/detail/Z9/p").isOk = true := by decide
      rw [hr] at hok
      simp [Except.toBool] at hok
  | ok r =>
      have ht := tier1_fields_not_overwritten richDetailInputs
        "https://a.com/detail/Z9/p" r hr
      refine ⟨r, rfl, ?_, ?_, ?_, ?_, ?_, ?_⟩
      · exact ht.1 "BB123" (by decide) (by decide) (by decide)
      · exact ht.2.2.2.2.1 "12345" (by decide) (by decide) (by decide)
      · have hmu := ht.2.2.2.2.2.2.1 "/m.xlsx" (by decide)
        rw [hmu]
        decide
      · exact ht.2.2.2.2.2.2.2.1 "Salvage" (by decide) (by decide) (by decide)
      · exact ht.2.2.2.2.2.2.2.2.1 "KY-1" (by decide) (by decide) (by decide)
      · exact ht.2.2.2.2.2.2.2.2.2 "Nice Pallet" (by decide) (by decide) (by decide)

/-- C7 counterexample: the detail page carries an explicit current-bid
field reading zero dollars, yet the bid-history fallback overwrites the
parsed zero with the first history value, because the source's guard is
Python truthiness (not-None) rather than presence; this refutes the claim
that an existing explicit current-bid field is left unchanged. -/
theorem zero_bid_overwritten_by_history :
    (match parse_techliquidators_detail zeroBidInputs "u" with
     | Except.ok r => (r "current_bid", r "current_bid_value")
     | Except.error _ => (none, none)) =
    (some (Val.vStr "$0.00"), some (Val.vDec ⟨5, 0⟩)) ∧
    parse_currency "$0.00" = Except.ok (some Dec.zero) :=
  ⟨by decide, by decide⟩

/-- C7 amended: when the explicit current-bid field parses to a nonzero
value, the bid-history fallback leaves current_bid_value unchanged; when
the explicit field is absent or parses to a falsy value (None or zero),
and some bid-history row parses as currency, current_bid_value is set to
the first such parsed value. -/
theorem current_bid_fallback_semantics (inp : DetailInputs) (url : String) (r : Record)
    (h : parse_techliquidators_detail inp url = Except.ok r) :
    (∀ q : Dec,
        parse_currency (pyStr (pyGetD (ptdBase inp url) "current_bid" (Val.vStr ""))) =
          Except.ok (some q) → q.num ≠ 0 →
        r "current_bid_value" = some (Val.vDec q)) ∧
    (∀ (cb : Option Dec) (parsed : List (Option Dec)) (q : Dec) (qs : List Dec),
        parse_currency (pyStr (pyGetD (ptdBase inp url) "current_bid" (Val.vStr ""))) =
          Except.ok cb →
        (cb = none ∨ ∃ d, cb = some d ∧ d.num = 0) →
        pcBids inp.bidHistory = Except.ok parsed →
        parsed.filterMap id = q :: qs →
        r "current_bid_value" = some (Val.vDec q)) := by
  unfold parse_techliquidators_detail at h
  obtain ⟨v3, r12, hpc, hbf, hcbv, hbh⟩ := ptdValues_cbv inp.listingTitle _ r h
  constructor
  · intro q hq hqne
    have hv3 : v3 = some q := by rw [hpc] at hq; exact Except.ok.inj hq
    subst hv3
    have htr : truthyAt r12 "current_bid_value" = true := by
      simp [truthyAt, hcbv, optDecVal, pyTruthy, hqne]
    have hkeep := bidFallbackStep_keep _ _ hbf htr
    rw [hkeep, hcbv]
    rfl
  · intro cb parsed q qs hq hfalsy hpcb hfm
    have hv3 : v3 = cb := by rw [hpc] at hq; exact Except.ok.inj hq
    subst hv3
    have hcf : truthyAt r12 "current_bid_value" = false := by
      rcases hfalsy with rfl | ⟨d, rfl, hd⟩
      · simp [truthyAt, hcbv, optDecVal, pyTruthy]
      · simp [truthyAt, hcbv, optDecVal, pyTruthy, hd]
    have hrows : inp.bidHistory ≠ [] := by
      intro hnil
      rw [hnil] at hpcb
      have hpe : parsed = [] := (Except.ok.inj hpcb).symm
      rw [hpe] at hfm
      cases hfm
    have hbh' : r12 "bid_history" = some (Val.vRows inp.bidHistory) := by
      rw [hbh]; exact ptdBase_bid_history inp url
    have hset := bidFallbackStep_set r12 inp.bidHistory parsed q qs hbh' hrows hpcb hfm hcf
    rw [hbf] at hset
    have hre := Except.ok.inj hset
    rw [hre]
    exact rset_self _ _ _

/-- Witness for C7 amended: a nonzero explicit bid survives the fallback,
and a zero explicit bid is replaced by the first bid-history value. -/
theorem current_bid_fallback_semantics_witness :
    (∃ r, parse_techliquidators_detail nonzeroBidInputs "u" = Except.ok r ∧
      r "current_bid_value" = some (Val.vDec ⟨75, 1⟩)) ∧
    (∃ r, parse_techliquidators_detail zeroBidInputs "u" = Except.ok r ∧
      r "current_bid_value" = some (Val.vDec ⟨5, 0⟩)) := by
  constructor
  · cases hr : parse_techliquidators_detail nonzeroBidInputs "u" with
    | error e =>
        have hok : (parse_techliquidators_detail nonzeroBidInputs "u").isOk = true := by
          decide
        rw [hr] at hok
        simp [Except.toBool] at hok
    | ok r =>
        refine ⟨r, rfl, ?_⟩
        exact (current_bid_fallback_semantics nonzeroBidInputs "u" r hr).1
          ⟨75, 1⟩ (by decide) (by decide)
  · cases hr : parse_techliquidators_detail zeroBidInputs "u" with
    | error e =>
        have hok : (parse_techliquidators_detail zeroBidInputs "u").isOk = true := by
          decide
        rw [hr] at hok
        simp [Except.toBool] at hok
    | ok r =>
        refine ⟨r, rfl, ?_⟩
        exact (current_bid_fallback_semantics zeroBidInputs "u" r hr).2
          (some ⟨0, 0⟩) [some ⟨5, 0⟩] ⟨5, 0⟩ [] (by decide)
          (Or.inr ⟨⟨0, 0⟩, rfl, rfl⟩) (by decide) (by decide)

end Scrape
